import Mathlib

/-!
# ChartMuseum: router matching and the multitenant read path

A shallow embedding of the request router (`pkg/chartmuseum/router`) and of the
index / object read path of the multitenant server
(`pkg/chartmuseum/server/multitenant`), together with the properties the
specification states about them.

Strings of the program are Lean `String`s; paths are taken apart character by
character (`String.data`) so that every definition is structurally recursive and
evaluates on concrete requests.
-/

namespace ChartMuseum

/-! ## Router -/

/-- The router a server is built on (`cm_router.Router`): of its fields the
server reads the context path. -/
structure Router where
  ContextPath : String
  deriving DecidableEq, Repr

namespace Router

/-- A registered route: `Route{Method, Path, Handler, Action}` as built in
`match_test.go`; the handler callback is represented by its index in the
handler table. -/
structure Route where
  Method : String
  Path : String
  Handler : Nat
  Action : String
  deriving DecidableEq, Repr

/-- One extracted path parameter, `gin.Param{Key, Value}`. -/
structure Param where
  Key : String
  Value : String
  deriving DecidableEq, Repr

/-- The capability `cm_auth.PullAction` attached to the read routes. -/
def PullAction : String := "pull"

/-- The four core routes of `match_test.go`, in registration order. -/
def coreRoutes : List Route :=
  [ ⟨"GET", "/", 0, PullAction⟩,
    ⟨"GET", "/health", 1, ""⟩,
    ⟨"GET", "/:repo/index.yaml", 2, PullAction⟩,
    ⟨"GET", "/:repo/charts/:filename", 3, PullAction⟩ ]

/-- Cut a character sequence at every `/`. -/
def splitSlash : List Char → List (List Char)
  | [] => [[]]
  | c :: cs =>
    if c = '/' then [] :: splitSlash cs
    else
      match splitSlash cs with
      | [] => [[c]]
      | s :: ss => (c :: s) :: ss

/-- The path segments of a URL or of a route pattern: the non-empty pieces
between slashes. -/
def segments (path : String) : List String :=
  ((splitSlash path.data).filter (fun s => !s.isEmpty)).map String.mk

/-- The absolute path made of the given segments, `/s1/s2/.../sn`
(the empty string for no segment). -/
def joinPath (segs : List String) : String :=
  String.mk (segs.foldr (fun s acc => '/' :: (s.data ++ acc)) [])

/-- A segment of a pattern: a literal, a single-segment named parameter
(`:name`), or the tenant-path wildcard (`:repo`). -/
inductive PatSeg where
  | lit (s : String)
  | param (name : String)
  | tenant
  deriving DecidableEq, Repr

/-- Modelled from the spec: a pattern segment of `match.go` is a literal, a
named parameter `:name`, or the tenant wildcard `:repo`. -/
def parseSeg (s : String) : PatSeg :=
  match s.data with
  | ':' :: name => if name = "repo".data then PatSeg.tenant else PatSeg.param (String.mk name)
  | _ => PatSeg.lit s

/-- Modelled from the spec: the pattern of a route path of `match.go`, its
ordered sequence of literal-or-wildcard segments. -/
def parsePattern (path : String) : List PatSeg :=
  (segments path).map parseSeg

/-- Remove `pre` from the front of `s`, if it is there. -/
def stripPrefix : List Char → List Char → Option (List Char)
  | [], s => some s
  | _ :: _, [] => none
  | p :: ps, c :: cs => if p = c then stripPrefix ps cs else none

/-- Modelled from the spec: the alignment of a pattern of `match.go` with the
segments of a request. The tenant wildcard
consumes exactly `depth` segments (it cannot match when no depth is known) and
binds them, joined by `/`, to `repo`; a named parameter binds one segment.
The result is the single-segment bindings in pattern order and the tenant
binding (if the pattern has the wildcard). -/
def matchSegs : List PatSeg → List String → Option Nat → Option (List Param × List Param)
  | [], [], _ => some ([], [])
  | [], _ :: _, _ => none
  | PatSeg.lit _ :: _, [], _ => none
  | PatSeg.lit s :: ps, x :: xs, d =>
    if s = x then matchSegs ps xs d else none
  | PatSeg.param _ :: _, [], _ => none
  | PatSeg.param n :: ps, x :: xs, d =>
    (matchSegs ps xs d).map (fun r => (⟨n, x⟩ :: r.1, r.2))
  | PatSeg.tenant :: _, _, none => none
  | PatSeg.tenant :: ps, xs, some d =>
    if xs.length < d then none
    else
      (matchSegs ps (xs.drop d) (some d)).map
        (fun r => (r.1, ⟨"repo", String.intercalate "/" (xs.take d)⟩ :: r.2))

/-- Modelled from the spec: the fixed non-tenant route suffixes by which
`match.go` infers the depth. -/
def fixedSuffixes : List String := ["", "health", "index.yaml", "charts/:filename"]

/-- Modelled from the spec: the suffix test of the dynamic depth of `match.go`,
whether the remaining suffix matches one of the fixed non-tenant suffixes. -/
def isFixedSuffix (segs : List String) : Bool :=
  fixedSuffixes.any (fun p => (matchSegs (parsePattern p) segs (some 0)).isSome)

/-- Modelled from the spec: the dynamic depth of `match.go`. Successively
longer tenant-path prefixes are tried; the first one whose remaining suffix is
a fixed suffix gives the split point. -/
def dynamicDepth : List String → Option Nat
  | [] => if isFixedSuffix [] then some 0 else none
  | x :: rest =>
    if isFixedSuffix (x :: rest) then some 0 else (dynamicDepth rest).map Nat.succ

/-- Modelled from the spec: the parameter list `match.go` hands back for a
matched route, in the order expected by `match_test.go`: the single-segment
bindings followed by the tenant binding; `nil` when nothing was bound. -/
def paramsOf (r : List Param × List Param) : Option (List Param) :=
  match r.1 ++ r.2 with
  | [] => none
  | ps => some ps

/-- Modelled from the spec: the route loop of `match.go`, which attempts the
routes in registration order for the given method. -/
def firstMatch : List Route → String → List String → Option Nat →
    Option Route × Option (List Param)
  | [], _, _, _ => (none, none)
  | r :: rs, method, segs, d =>
    if r.Method = method then
      match matchSegs (parsePattern r.Path) segs d with
      | some b => (some r, paramsOf b)
      | none => firstMatch rs method segs d
    else firstMatch rs method segs d

/-- Modelled from the spec: the router's `match` function
(`pkg/chartmuseum/router/match.go`, of which only the test `match_test.go` is
present). Strip the context path prefix and fail if it is absent; split the
rest into segments; the tenant depth is the configured one (static) or the one
inferred from the fixed suffixes (dynamic); then attempt every route in
registration order. No match gives `(nil, nil)`. The order of the parameters
(`filename` before `repo`) and the `nil` list for literal routes are those
expected by `match_test.go`. -/
def matchRoute (routes : List Route) (method url contextPath : String)
    (depth : Nat) (depthDynamic : Bool) : Option Route × Option (List Param) :=
  match stripPrefix contextPath.data url.data with
  | none => (none, none)
  | some rest =>
    let segs := segments (String.mk rest)
    firstMatch routes method segs (if depthDynamic then dynamicDepth segs else some depth)

/-- Does the pattern hold the tenant wildcard? -/
def hasTenant : List PatSeg → Bool
  | [] => false
  | PatSeg.tenant :: _ => true
  | _ :: ps => hasTenant ps

/-- Modelled from the spec: a second reading of the dynamic mode of `match.go`,
after the spec's matching strategy ("attempt each registered route in
registration order", the tenant wildcard standing for "a greedily-determined
count" of segments). For the route under trial the tenant path is whatever
precedes the rest of the route's pattern: the depth is the one that lets the
pattern cover the whole request. A route without the wildcard needs no
depth. -/
def routeDepth (pattern : List PatSeg) (segs : List String) : Option Nat :=
  if hasTenant pattern then
    if pattern.length ≤ segs.length + 1 then some (segs.length + 1 - pattern.length) else none
  else none

/-- Modelled from the spec: the route loop of `match.go` under the second
reading of the dynamic mode, each route being tried with its own depth. -/
def firstMatchByRoute : List Route → String → List String →
    Option Route × Option (List Param)
  | [], _, _ => (none, none)
  | r :: rs, method, segs =>
    if r.Method = method then
      match matchSegs (parsePattern r.Path) segs (routeDepth (parsePattern r.Path) segs) with
      | some b => (some r, paramsOf b)
      | none => firstMatchByRoute rs method segs
    else firstMatchByRoute rs method segs

/-- Modelled from the spec: `match` of `match.go` in dynamic mode under the
second reading, which differs from `matchRoute` in dynamic mode only in how
the tenant depth is found. -/
def matchRouteByRoute (routes : List Route) (method url contextPath : String) :
    Option Route × Option (List Param) :=
  match stripPrefix contextPath.data url.data with
  | none => (none, none)
  | some rest => firstMatchByRoute routes method (segments (String.mk rest))

/-- A path segment of a request: not empty and without a slash. -/
abbrev WellFormedSegment (s : String) : Prop := s.data ≠ [] ∧ '/' ∉ s.data

/-- The route `GET /`. -/
def rootRoute : Route := ⟨"GET", "/", 0, PullAction⟩

/-- The route `GET /health`. -/
def healthRoute : Route := ⟨"GET", "/health", 1, ""⟩

/-- The route `GET /:repo/index.yaml`. -/
def indexRoute : Route := ⟨"GET", "/:repo/index.yaml", 2, PullAction⟩

/-- The route `GET /:repo/charts/:filename`. -/
def chartRoute : Route := ⟨"GET", "/:repo/charts/:filename", 3, PullAction⟩

end Router

/-! ## Multitenant server: index and object read path -/

namespace Multitenant

/-- Instants (`time.Time`) counted in nanoseconds. -/
abbrev Time := Int

/-- Spans of time (`time.Duration`), in nanoseconds. -/
abbrev Duration := Int

/-- Chart metadata (`chart.Metadata`): the fields the read path looks at. -/
structure Metadata where
  Name : String
  Version : String
  deriving DecidableEq, Repr

/-- One version record of the index (`helm_repo.ChartVersion`). -/
structure ChartVersion where
  Metadata : Metadata
  URLs : List String
  Created : Time
  deriving DecidableEq, Repr

/-- A storage object descriptor (`storage.Object`). -/
structure Object where
  Path : String
  Content : List Nat
  LastModified : Time
  Meta : Metadata
  deriving DecidableEq, Repr

/-- The generated index document (`cm_repo.Index`): the entries, a map from
chart name to its versions, kept as an association list, and the serialized
bytes. -/
structure Index where
  Entries : List (String × List ChartVersion)
  Raw : List Nat
  deriving DecidableEq, Repr

/-- A tenant's cache entry; `RepoIndex` is a pointer and may be nil. -/
structure cacheEntry where
  RepoIndex : Option Index
  deriving DecidableEq, Repr

/-- The diff of two object listings (`storage.ObjectSliceDiff`). -/
structure ObjectSliceDiff where
  Change : Bool
  Removed : List Object
  Added : List Object
  Updated : List Object
  deriving DecidableEq, Repr

/-- The error handed to the HTTP layer (`HTTPError` of `handlers.go`). -/
structure HTTPError where
  Status : Nat
  Message : String
  deriving DecidableEq, Repr

/-- Result of a fetch: the listing, or the text of the error. -/
structure fetchedObjects where
  objects : List Object
  err : Option String
  deriving DecidableEq, Repr

/-- Result of a regeneration: the index, or the text of the error. -/
structure indexRegeneration where
  index : Option Index
  err : Option String
  deriving DecidableEq, Repr

/-- Log levels used by the read path. -/
inductive Level where
  | Debug
  | Warn
  | Error
  deriving DecidableEq, Repr

/-- A buffered channel (`chan struct{}`, `chan event`), seen as its capacity
and the number of elements waiting in its buffer. -/
structure Chan where
  capacity : Nat
  length : Nat
  deriving DecidableEq, Repr

/-- Go's `make(chan T, size)`; a negative size panics (`none`). -/
def makeChan (size : Int) : Option Chan :=
  if size < 0 then none else some ⟨size.toNat, 0⟩

/-- A send on the channel: it puts an element in the buffer when there is
room; otherwise the sender has to wait (`none`). -/
def Chan.send (c : Chan) : Option Chan :=
  if c.length < c.capacity then some ⟨c.capacity, c.length + 1⟩ else none

/-- A receive from the channel: it takes an element out of the buffer when
there is one; otherwise the receiver has to wait (`none`). -/
def Chan.receive (c : Chan) : Option Chan :=
  if 0 < c.length then some ⟨c.capacity, c.length - 1⟩ else none

/-- The operations attempted on a channel. -/
inductive ChanOp where
  | send
  | receive
  deriving DecidableEq, Repr

/-- The channel after one attempted operation; an operation that has to wait
leaves the buffer as it is. -/
def Chan.step (c : Chan) : ChanOp → Chan
  | ChanOp.send => (c.send).getD c
  | ChanOp.receive => (c.receive).getD c

/-- The channel after a sequence of attempted operations. -/
def Chan.run (c : Chan) (ops : List ChanOp) : Chan :=
  ops.foldl Chan.step c

/-- The configuration held by a `MultiTenantServer`, its router, and its two
channels: the limiter of index builds and the event channel. -/
structure MultiTenantServer where
  TimestampTolerance : Duration
  MaxStorageObjects : Int
  IndexLimit : Int
  UseStatefiles : Bool
  ChartURL : String
  Version : String
  CacheInterval : Duration
  Router : Router
  Limiter : Chan
  EventChan : Chan
  deriving DecidableEq, Repr

/-- The options a server is built from (`MultiTenantServerOptions`), without
the logger and the storage handles. -/
structure MultiTenantServerOptions where
  Router : Router
  TimestampTolerance : Duration
  ChartURL : String
  Version : String
  MaxStorageObjects : Int
  IndexLimit : Int
  GenIndex : Bool
  UseStatefiles : Bool
  CacheInterval : Duration
  deriving DecidableEq, Repr

/-- The constructor `NewMultiTenantServer`. The result is `none` when a
channel cannot be made and the call panics; otherwise the server is returned
with a nil error. The calls that follow the construction (`SetRoutes`,
`startEventListener`, `initCacheTimer`), whose code is not at hand, register
the routes and start background work; they are taken to leave the fields set
here as they are. -/
def NewMultiTenantServer (options : MultiTenantServerOptions) : Option MultiTenantServer :=
  let chartURL :=
    if options.ChartURL ≠ "" then options.ChartURL ++ options.Router.ContextPath else ""
  match makeChan options.IndexLimit with
  | none => none
  | some limiter =>
    match makeChan options.IndexLimit with
    | none => none
    | some eventChan =>
      some ⟨options.TimestampTolerance, options.MaxStorageObjects, options.IndexLimit,
        options.UseStatefiles, chartURL, options.Version, options.CacheInterval,
        options.Router, limiter, eventChan⟩

/-- What a call does besides returning: the collaborators it invokes, the
lines it logs and the assignments it makes to the cache entry, in order. -/
inductive Event where
  | initCacheEntry (repo : String)
  | log (level : Level) (msg : String) (repo : String)
  | getChartList (repo : String)
  | getObjectSliceDiff (cached fetched : List Object) (tolerance : Duration)
  | regenerateRepositoryIndex (entry : cacheEntry) (diff : ObjectSliceDiff)
  | assignRepoIndex (index : Option Index)
  | getObject (objectPath : String)
  | logObject (level : Level) (msg : String) (repo : String) (filename : String)
  deriving DecidableEq, Repr

/-- Is the event a call of the fetch coordinator? -/
def Event.isFetch : Event → Bool
  | Event.getChartList _ => true
  | _ => false

/-- Is the event a call of the regeneration coordinator? -/
def Event.isRegeneration : Event → Bool
  | Event.regenerateRepositoryIndex _ _ => true
  | _ => false

/-- Is the event an assignment to a field of the cache entry? -/
def Event.isAssignment : Event → Bool
  | Event.assignRepoIndex _ => true
  | _ => false

/-- The methods and library functions the read path calls whose code is not
part of the files at hand. An error is represented by its text
(`err.Error()`). `initCacheEntry` yields the tenant's entry or fails;
`getChartList` is the fetch coordinator and sees only the tenant key;
`regenerateRepositoryIndex` is the regeneration coordinator, which is handed
the entry itself and so also yields the entry as it leaves it; `GetObject` is
the storage backend. -/
structure Collaborators where
  initCacheEntry : String → Except String cacheEntry
  getChartList : String → fetchedObjects
  StorageObjectFromChartVersion : ChartVersion → Object
  GetObjectSliceDiff : List Object → List Object → Duration → ObjectSliceDiff
  regenerateRepositoryIndex : cacheEntry → ObjectSliceDiff → indexRegeneration × cacheEntry
  GetObject : String → Except String Object

/-- The two loops of `getRepoObjectSlice` over the entries of an index: every
chart version of every chart name is converted and appended. The association
list is walked in its own order. -/
def indexObjects (env : Collaborators) (idx : Index) : List Object :=
  idx.Entries.foldl
    (fun objects e =>
      e.2.foldl (fun objects chartVersion =>
        objects ++ [env.StorageObjectFromChartVersion chartVersion]) objects)
    []

/-- The objects of the cached index, one per chart version
(`getRepoObjectSlice`). The result is `none` when `entry.RepoIndex` is nil:
ranging over its entries dereferences the nil pointer. -/
def getRepoObjectSlice (env : Collaborators) (entry : cacheEntry) : Option (List Object) :=
  match entry.RepoIndex with
  | none => none
  | some idx => some (indexObjects env idx)

/-- What `getIndexFile` hands back and leaves behind: the returned index and
error, the cache entry after the call (none when it could not be
initialised), and the events of the call. -/
structure IndexFileResult where
  index : Option Index
  err : Option HTTPError
  entry : Option cacheEntry
  trace : List Event
  deriving DecidableEq, Repr

/-- The message logged when storage and cache agree. -/
def noChangeMessage : String := "No change detected between cache and storage"

/-- The index read path, `MultiTenantServer.getIndexFile`. The result is
`none` when the call dereferences a nil `RepoIndex` and never returns. -/
def getIndexFile (server : MultiTenantServer) (env : Collaborators) (repo : String) :
    Option IndexFileResult :=
  match env.initCacheEntry repo with
  | Except.error errStr =>
    some ⟨none, some ⟨500, errStr⟩, none,
      [Event.initCacheEntry repo, Event.log Level.Error errStr repo]⟩
  | Except.ok entry =>
    match entry.RepoIndex with
    | none => none
    | some idx =>
      if idx.Entries.length = 0 ∧ server.CacheInterval = 0 then
        let fo := env.getChartList repo
        match fo.err with
        | some errStr =>
          some ⟨none, some ⟨500, errStr⟩, some entry,
            [Event.initCacheEntry repo, Event.getChartList repo,
             Event.log Level.Error errStr repo]⟩
        | none =>
          match getRepoObjectSlice env entry with
          | none => none
          | some objects =>
            let diff := env.GetObjectSliceDiff objects fo.objects server.TimestampTolerance
            if !diff.Change then
              some ⟨entry.RepoIndex, none, some entry,
                [Event.initCacheEntry repo, Event.getChartList repo,
                 Event.getObjectSliceDiff objects fo.objects server.TimestampTolerance,
                 Event.log Level.Debug noChangeMessage repo]⟩
            else
              let ir := env.regenerateRepositoryIndex entry diff
              match ir.1.err with
              | some errStr =>
                some ⟨ir.1.index, some ⟨500, errStr⟩, some ir.2,
                  [Event.initCacheEntry repo, Event.getChartList repo,
                   Event.getObjectSliceDiff objects fo.objects server.TimestampTolerance,
                   Event.regenerateRepositoryIndex entry diff,
                   Event.log Level.Error errStr repo]⟩
              | none =>
                some ⟨ir.1.index, none, some { ir.2 with RepoIndex := ir.1.index },
                  [Event.initCacheEntry repo, Event.getChartList repo,
                   Event.getObjectSliceDiff objects fo.objects server.TimestampTolerance,
                   Event.regenerateRepositoryIndex entry diff,
                   Event.assignRepoIndex ir.1.index]⟩
      else
        some ⟨entry.RepoIndex, none, some entry, [Event.initCacheEntry repo]⟩

/-- The diff a cold read computes for a tenant whose cached index is `idx`:
the objects of the cached index against the fetched listing, with the server's
tolerance. -/
def readDiff (server : MultiTenantServer) (env : Collaborators) (repo : String)
    (idx : Index) : ObjectSliceDiff :=
  env.GetObjectSliceDiff (indexObjects env idx) (env.getChartList repo).objects
    server.TimestampTolerance

/-- The outcome of the regeneration a cold read asks for: its result and the
entry as the regeneration coordinator leaves it. -/
def readRegeneration (server : MultiTenantServer) (env : Collaborators) (repo : String)
    (entry : cacheEntry) (idx : Index) : indexRegeneration × cacheEntry :=
  env.regenerateRepositoryIndex entry (readDiff server env repo idx)

/-! ### Object reads -/

/-- The content type of chart packages. -/
def chartPackageContentType : String := "application/x-tar"

/-- A storage object together with its content type. -/
structure StorageObject where
  Object : Object
  ContentType : String
  deriving DecidableEq, Repr

/-- One step of Go's `path.Clean` over the elements of a path: empty
elements and `.` vanish, `..` removes the element before it (it is kept in
front of a relative path, and dropped at the root). -/
def cleanStep (rooted : Bool) (out : List String) (seg : String) : List String :=
  if seg = "" ∨ seg = "." then out
  else if seg = ".." then
    match out.getLast? with
    | none => if rooted then out else out ++ [".."]
    | some top => if top = ".." then out ++ [".."] else out.dropLast
  else out ++ [seg]

/-- Go's `path.Clean`. -/
def pathClean (path : String) : String :=
  let rooted := path.data.head? = some '/'
  let out := ((Router.splitSlash path.data).map String.mk).foldl (cleanStep rooted) []
  if rooted then "/" ++ String.intercalate "/" out
  else if out.isEmpty then "." else String.intercalate "/" out

/-- Go's `path.Join` of two elements: empty elements are ignored, the rest
are joined by a slash and cleaned; joining nothing gives the empty string. -/
def pathJoin (a b : String) : String :=
  if a = "" ∧ b = "" then ""
  else if a = "" then pathClean b
  else pathClean (a ++ "/" ++ b)

/-- Go's `path.Base`: the last element of the path, trailing slashes set
aside; `.` for the empty path and `/` for a path of slashes only. -/
def pathBase (path : String) : String :=
  if path = "" then "."
  else
    match ((Router.splitSlash path.data).filter (fun s => !s.isEmpty)).getLast? with
    | none => "/"
    | some s => String.mk s

/-- Modelled from the spec: `StorageObjectFromChartVersion` of `pkg/repo`, of
which only the test `chart_test.go` is at hand. The object descriptor of a
chart version of the index has the last element of the version's first URL as
its path, the creation time as its last-modified time, the chart's name and
version as its metadata and no content. Without a URL there is no path to
take and no object results (`none`). -/
def StorageObjectFromChartVersion (chartVersion : ChartVersion) : Option Object :=
  match chartVersion.URLs with
  | [] => none
  | url :: _ =>
    some ⟨pathBase url, [], chartVersion.Created,
      ⟨chartVersion.Metadata.Name, chartVersion.Metadata.Version⟩⟩

/-- A path segment that is an ordinary name: well formed and neither `.` nor
`..`. -/
abbrev PlainSegment (s : String) : Prop :=
  Router.WellFormedSegment s ∧ s ≠ "." ∧ s ≠ ".."

/-- What `getStorageObject` hands back, with the events of the call. -/
structure StorageObjectResult where
  object : Option StorageObject
  err : Option HTTPError
  trace : List Event
  deriving DecidableEq, Repr

/-- The object read path, `MultiTenantServer.getStorageObject`. -/
def getStorageObject (env : Collaborators) (repo filename : String) : StorageObjectResult :=
  let objectPath := pathJoin repo filename
  match env.GetObject objectPath with
  | Except.error errStr =>
    ⟨none, some ⟨404, "object not found"⟩,
      [Event.getObject objectPath, Event.logObject Level.Warn errStr repo filename]⟩
  | Except.ok object =>
    ⟨some ⟨object, chartPackageContentType⟩, none, [Event.getObject objectPath]⟩

/-- What a request handler writes: `c.JSON(status, {"error": message})` or
`c.Data(status, contentType, content)`. -/
inductive Response where
  | json (status : Nat) (error : String)
  | data (status : Nat) (contentType : String) (content : List Nat)
  deriving DecidableEq, Repr

/-- The status code of a response. -/
def Response.status : Response → Nat
  | Response.json s _ => s
  | Response.data s _ _ => s

/-- The value of the first parameter with the given key (`c.Param`), the
empty string when there is none. -/
def paramValue (params : List Router.Param) (key : String) : String :=
  match params.find? (fun p => p.Key = key) with
  | some p => p.Value
  | none => ""

/-- The handler of `GET /:repo/charts/:filename`,
`getStorageObjectRequestHandler`. The read path never hands back a nil object
with a nil error, so the last case does not arise. -/
def getStorageObjectRequestHandler (env : Collaborators) (params : List Router.Param) :
    Response :=
  let repo := paramValue params "repo"
  let filename := paramValue params "filename"
  let r := getStorageObject env repo filename
  match r.err with
  | some err => Response.json err.Status err.Message
  | none =>
    match r.object with
    | some storageObject =>
      Response.data 200 storageObject.ContentType storageObject.Object.Content
    | none => Response.data 200 "" []

/-! ### The diff of two listings -/

/-- Modelled from the spec: the listings compared by
`storage.GetObjectSliceDiff` are keyed by path; this is the object of a
listing stored under the given path. -/
def lookupPath (objs : List Object) (path : String) : Option Object :=
  objs.find? (fun o => o.Path = path)

/-- Modelled from the spec: the update test of `storage.GetObjectSliceDiff`,
whether the last-modified timestamps differ by more than the tolerance. -/
def isUpdated (tolerance : Duration) (cached current : Object) : Bool :=
  tolerance < ((current.LastModified - cached.LastModified).natAbs : Int)

/-- Modelled from the spec: the diff `storage.GetObjectSliceDiff` of the
cached and the current listing, whose code is in the storage library and not
at hand. The two lists are compared keyed by path: a cached object whose path
is gone is removed, a current object whose path is new is added, and a current
object whose path is cached counts as updated only if its last-modified
timestamp differs from the cached one by more than the tolerance. The change
flag is set when any of the three is non-empty. -/
def GetObjectSliceDiff (cached current : List Object) (tolerance : Duration) :
    ObjectSliceDiff :=
  let removed := cached.filter (fun p => (lookupPath current p.Path).isNone)
  let added := current.filter (fun c => (lookupPath cached c.Path).isNone)
  let updated := current.filter (fun c =>
    match lookupPath cached c.Path with
    | some p => isUpdated tolerance p c
    | none => false)
  ⟨!(removed.isEmpty && added.isEmpty && updated.isEmpty), removed, added, updated⟩

/-- Do the two listings hold the same paths? -/
def samePaths (cached current : List Object) : Bool :=
  cached.all (fun o => (lookupPath current o.Path).isSome) &&
    current.all (fun o => (lookupPath cached o.Path).isSome)

/-- One of the steps the call ran failed with the given error text: the
initialisation of the cache entry, the fetch, or the regeneration. -/
def stepFailedWith (env : Collaborators) (repo : String) (trace : List Event) (msg : String) :
    Prop :=
  env.initCacheEntry repo = Except.error msg ∨
  (Event.getChartList repo ∈ trace ∧ (env.getChartList repo).err = some msg) ∨
  (∃ entry diff, Event.regenerateRepositoryIndex entry diff ∈ trace ∧
    (env.regenerateRepositoryIndex entry diff).1.err = some msg)

/-! ### Sample data -/

/-- A server with the given timestamp tolerance and cache refresh interval. -/
def sampleServer (tolerance interval : Duration) : MultiTenantServer :=
  ⟨tolerance, 0, 1, false, "", "", interval, ⟨""⟩, ⟨1, 0⟩, ⟨1, 0⟩⟩

/-- Collaborators with a fixed behaviour: the entry found in the cache, the
result of the fetch, the result of the regeneration (which leaves the entry
alone) and the storage backend; chart versions are converted by
`StorageObjectFromChartVersion` and listings are compared by
`GetObjectSliceDiff`. -/
def sampleCollaborators (cached : cacheEntry) (listing : fetchedObjects)
    (regenerated : indexRegeneration) (backend : String → Except String Object) :
    Collaborators :=
  Collaborators.mk (fun _ => Except.ok cached) (fun _ => listing)
    (fun cv => (StorageObjectFromChartVersion cv).getD ⟨"", [], cv.Created, cv.Metadata⟩)
    GetObjectSliceDiff (fun e _ => (regenerated, e)) backend

/-- Collaborators whose cache entry cannot be initialised. -/
def brokenCacheCollaborators (errStr : String) : Collaborators :=
  Collaborators.mk (fun _ => Except.error errStr) (fun _ => ⟨[], none⟩)
    (fun cv => (StorageObjectFromChartVersion cv).getD ⟨"", [], cv.Created, cv.Metadata⟩)
    GetObjectSliceDiff (fun e _ => (⟨none, none⟩, e)) (fun _ => Except.error "object not found")

/-- The chart `mychart-0.1.0` as listed at the given time. -/
def sampleObject (modified : Time) : Object :=
  ⟨"mychart-0.1.0.tgz", [], modified, ⟨"mychart", "0.1.0"⟩⟩

/-- An index with the single chart `mychart-0.1.0`. -/
def sampleIndex : Index :=
  ⟨[("mychart", [⟨⟨"mychart", "0.1.0"⟩, ["charts/mychart-0.1.0.tgz"], 100⟩])], [1, 2, 3]⟩

/-- An index without entries. -/
def emptyIndex : Index := ⟨[], []⟩

end Multitenant

/-! ## Properties of the router -/

namespace Router

theorem stripPrefix_append (p r : List Char) : stripPrefix p (p ++ r) = some r := by
  induction p with
  | nil => cases r <;> rfl
  | cons a p ih => simp [stripPrefix, ih]

theorem splitSlash_ne_nil (s : List Char) : splitSlash s ≠ [] := by
  induction s with
  | nil => simp [splitSlash]
  | cons c cs ih =>
    unfold splitSlash
    split
    · simp
    · split <;> simp

theorem splitSlash_seg (s : List Char) (h : '/' ∉ s) : splitSlash s = [s] := by
  induction s with
  | nil => rfl
  | cons c cs ih =>
    have hc : c ≠ '/' := fun e => h (by simp [e])
    have hcs : '/' ∉ cs := fun e => h (by simp [e])
    simp [splitSlash, hc, ih hcs]

theorem splitSlash_seg_slash (s rest : List Char) (h : '/' ∉ s) :
    splitSlash (s ++ '/' :: rest) = s :: splitSlash rest := by
  induction s with
  | nil => simp [splitSlash]
  | cons c cs ih =>
    have hc : c ≠ '/' := fun e => h (by simp [e])
    have hcs : '/' ∉ cs := fun e => h (by simp [e])
    simp [splitSlash, hc, ih hcs]

theorem segments_joinPath (segs : List String) (h : ∀ s ∈ segs, WellFormedSegment s) :
    segments (joinPath segs) = segs := by
  unfold segments joinPath
  induction segs with
  | nil => decide
  | cons s rest ih =>
    have hs := h s (by simp)
    have hrest : ∀ t ∈ rest, WellFormedSegment t := fun t ht => h t (by simp [ht])
    have ih' := ih hrest
    cases rest with
    | nil =>
      simp [splitSlash, splitSlash_seg s.data hs.2, hs.1]
    | cons t rest' =>
      simp only [List.foldr_cons] at ih' ⊢
      simp only [splitSlash, if_true]
      rw [splitSlash_seg_slash s.data _ hs.2]
      simp only [splitSlash, if_true] at ih'
      simp [hs.1] at ih' ⊢
      exact ih'

/-- A request made of the context path followed by well-formed segments is
matched on those segments. -/
theorem matchRoute_joinPath (routes : List Route) (method c : String) (segs : List String)
    (d : Nat) (dyn : Bool) (h : ∀ s ∈ segs, WellFormedSegment s) :
    matchRoute routes method (c ++ joinPath segs) c d dyn
      = firstMatch routes method segs (if dyn then dynamicDepth segs else some d) := by
  have hseg : segments (String.mk (joinPath segs).data) = segs := segments_joinPath segs h
  simp only [matchRoute, String.data_append, stripPrefix_append, hseg]

/-- The request for the context path itself is matched on no segment. -/
theorem matchRoute_root (routes : List Route) (method c : String) (d : Nat) (dyn : Bool) :
    matchRoute routes method (if c = "" then "/" else c) c d dyn
      = firstMatch routes method [] (if dyn then dynamicDepth [] else some d) := by
  by_cases hc : c = ""
  · subst hc
    simp only [if_true]
    rfl
  · have h := stripPrefix_append c.data []
    simp only [List.append_nil] at h
    simp only [if_neg hc, matchRoute, h]
    rfl

theorem parsePattern_root : parsePattern "/" = [] := by decide

theorem parsePattern_health : parsePattern "/health" = [PatSeg.lit "health"] := by decide

theorem parsePattern_index :
    parsePattern "/:repo/index.yaml" = [PatSeg.tenant, PatSeg.lit "index.yaml"] := by decide

theorem parsePattern_chart :
    parsePattern "/:repo/charts/:filename"
      = [PatSeg.tenant, PatSeg.lit "charts", PatSeg.param "filename"] := by decide

/-- The fixed suffixes are: nothing, `health`, `index.yaml`, and `charts`
followed by one segment. -/
theorem isFixedSuffix_iff (segs : List String) :
    isFixedSuffix segs = true ↔
      segs = [] ∨ segs = ["health"] ∨ segs = ["index.yaml"] ∨ ∃ f, segs = ["charts", f] := by
  have p0 : parsePattern "" = [] := by decide
  have p1 : parsePattern "health" = [PatSeg.lit "health"] := by decide
  have p2 : parsePattern "index.yaml" = [PatSeg.lit "index.yaml"] := by decide
  have p3 : parsePattern "charts/:filename" = [PatSeg.lit "charts", PatSeg.param "filename"] := by
    decide
  simp only [isFixedSuffix, fixedSuffixes, List.any_cons, List.any_nil, p0, p1, p2, p3,
    Bool.or_false, Bool.or_eq_true]
  match segs with
  | [] => simp [matchSegs]
  | [a] =>
    simp only [matchSegs]
    by_cases h1 : "health" = a
    · subst h1; simp [matchSegs]
    · by_cases h2 : "index.yaml" = a
      · subst h2; simp [matchSegs]
      · by_cases h3 : "charts" = a
        · subst h3; simp [matchSegs]
        · simp [matchSegs, h1, h2, h3, Ne.symm h1, Ne.symm h2]
  | [a, b] =>
    simp only [matchSegs]
    by_cases h3 : "charts" = a
    · subst h3; simp [matchSegs]
    · have h3' : ¬ a = "charts" := fun e => h3 e.symm
      by_cases h1 : "health" = a
      · subst h1; simp [matchSegs]
      · by_cases h2 : "index.yaml" = a
        · subst h2; simp [matchSegs]
        · simp [matchSegs, h1, h2, h3, h3']
  | a :: b :: c :: rest =>
    simp only [matchSegs]
    by_cases h3 : "charts" = a
    · subst h3; simp [matchSegs]
    · by_cases h1 : "health" = a
      · subst h1; simp [matchSegs]
      · by_cases h2 : "index.yaml" = a
        · subst h2; simp [matchSegs]
        · simp [matchSegs, h1, h2, h3]

/-- Dynamic depth of a chart download path: the split point is right before
`charts`, whatever the tenant segments are. -/
theorem dynamicDepth_chart (ts : List String) (file : String) :
    dynamicDepth (ts ++ ["charts", file]) = some ts.length := by
  induction ts with
  | nil =>
    have h : isFixedSuffix ["charts", file] = true :=
      (isFixedSuffix_iff _).2 (Or.inr (Or.inr (Or.inr ⟨file, rfl⟩)))
    simp [dynamicDepth, h]
  | cons t ts ih =>
    have h : isFixedSuffix (t :: (ts ++ ["charts", file])) = false := by
      rw [Bool.eq_false_iff]
      intro hfix
      rcases (isFixedSuffix_iff _).1 hfix with h | h | h | ⟨f, h⟩
      · simp at h
      · cases ts <;> simp at h
      · cases ts <;> simp at h
      · have hl := congrArg List.length h
        simp at hl
    simp [dynamicDepth, h, ih]

/-- Dynamic depth of an index path: the split point is right before
`index.yaml`, unless the tenant path ends in `charts`. -/
theorem dynamicDepth_index (ts : List String) (h : ts.getLast? ≠ some "charts") :
    dynamicDepth (ts ++ ["index.yaml"]) = some ts.length := by
  induction ts with
  | nil =>
    have hfix : isFixedSuffix ["index.yaml"] = true :=
      (isFixedSuffix_iff _).2 (Or.inr (Or.inr (Or.inl rfl)))
    simp [dynamicDepth, hfix]
  | cons t ts ih =>
    have hnot : isFixedSuffix (t :: (ts ++ ["index.yaml"])) = false := by
      rw [Bool.eq_false_iff]
      intro hfix
      rcases (isFixedSuffix_iff _).1 hfix with h1 | h1 | h1 | ⟨f, h1⟩
      · simp at h1
      · cases ts <;> simp at h1
      · cases ts <;> simp at h1
      · cases ts with
        | nil =>
          simp at h1
          exact h (by simp [h1.1])
        | cons u us =>
          have hl := congrArg List.length h1
          simp at hl
    have hts : ts.getLast? ≠ some "charts" := by
      cases ts with
      | nil => simp
      | cons u us => simpa [List.getLast?_cons_cons] using h
    simp [dynamicDepth, hnot, ih hts]

/-- Static and dynamic matching of `/`. -/
theorem firstMatch_root (od : Option Nat) :
    firstMatch coreRoutes "GET" [] od = (some rootRoute, none) := by
  simp [firstMatch, coreRoutes, parsePattern_root, matchSegs, paramsOf, rootRoute]

/-- Static and dynamic matching of `/health`. -/
theorem firstMatch_health (od : Option Nat) :
    firstMatch coreRoutes "GET" ["health"] od = (some healthRoute, none) := by
  simp [firstMatch, coreRoutes, parsePattern_root, parsePattern_health, matchSegs, paramsOf,
    healthRoute]

/-- Matching of an index path once the depth is the length of the tenant
path. -/
theorem firstMatch_index (ts : List String) :
    firstMatch coreRoutes "GET" (ts ++ ["index.yaml"]) (some ts.length)
      = (some indexRoute, some [⟨"repo", String.intercalate "/" ts⟩]) := by
  have hroot : matchSegs [] (ts ++ ["index.yaml"]) (some ts.length) = none := by
    cases ts <;> simp [matchSegs]
  have hhealth : matchSegs [PatSeg.lit "health"] (ts ++ ["index.yaml"]) (some ts.length)
      = none := by
    match ts with
    | [] => simp [matchSegs]
    | [a] => by_cases ha : "health" = a <;> simp [matchSegs, ha]
    | a :: b :: rest => by_cases ha : "health" = a <;> simp [matchSegs, ha]
  have hidx : matchSegs [PatSeg.tenant, PatSeg.lit "index.yaml"] (ts ++ ["index.yaml"])
      (some ts.length) = some ([], [⟨"repo", String.intercalate "/" ts⟩]) := by
    simp [matchSegs]
  simp [firstMatch, coreRoutes, parsePattern_root, parsePattern_health, parsePattern_index,
    hroot, hhealth, hidx, paramsOf, indexRoute]

/-- Matching of a chart download path once the depth is the length of the
tenant path. -/
theorem firstMatch_chart (ts : List String) (file : String) :
    firstMatch coreRoutes "GET" (ts ++ ["charts", file]) (some ts.length)
      = (some chartRoute,
          some [⟨"filename", file⟩, ⟨"repo", String.intercalate "/" ts⟩]) := by
  have hroot : matchSegs [] (ts ++ ["charts", file]) (some ts.length) = none := by
    cases ts <;> simp [matchSegs]
  have hhealth : matchSegs [PatSeg.lit "health"] (ts ++ ["charts", file]) (some ts.length)
      = none := by
    match ts with
    | [] => simp [matchSegs]
    | a :: rest =>
      by_cases ha : "health" = a
      · cases rest <;> simp [matchSegs, ha]
      · simp [matchSegs, ha]
  have hidx : matchSegs [PatSeg.tenant, PatSeg.lit "index.yaml"] (ts ++ ["charts", file])
      (some ts.length) = none := by
    simp [matchSegs]
  have hchart : matchSegs [PatSeg.tenant, PatSeg.lit "charts", PatSeg.param "filename"]
      (ts ++ ["charts", file]) (some ts.length)
      = some ([⟨"filename", file⟩], [⟨"repo", String.intercalate "/" ts⟩]) := by
    simp [matchSegs]
  simp [firstMatch, coreRoutes, parsePattern_root, parsePattern_health, parsePattern_index,
    parsePattern_chart, hroot, hhealth, hidx, hchart, paramsOf, chartRoute]

theorem wellFormed_append (ts extra : List String) (hts : ∀ t ∈ ts, WellFormedSegment t)
    (hextra : ∀ t ∈ extra, WellFormedSegment t) : ∀ t ∈ ts ++ extra, WellFormedSegment t := by
  intro t ht
  rcases List.mem_append.1 ht with h | h
  · exact hts t h
  · exact hextra t h

theorem wellFormed_indexYaml : WellFormedSegment "index.yaml" := by decide

theorem wellFormed_charts : WellFormedSegment "charts" := by decide

/-! ### Static depth against dynamic depth -/

theorem matchRouteByRoute_joinPath (routes : List Route) (method c : String)
    (segs : List String) (h : ∀ s ∈ segs, WellFormedSegment s) :
    matchRouteByRoute routes method (c ++ joinPath segs) c
      = firstMatchByRoute routes method segs := by
  have hseg : segments (String.mk (joinPath segs).data) = segs := segments_joinPath segs h
  simp only [matchRouteByRoute, String.data_append, stripPrefix_append, hseg]

theorem matchRouteByRoute_root (routes : List Route) (method c : String) :
    matchRouteByRoute routes method (if c = "" then "/" else c) c
      = firstMatchByRoute routes method [] := by
  by_cases hc : c = ""
  · subst hc
    simp only [if_true]
    rfl
  · have h := stripPrefix_append c.data []
    simp only [List.append_nil] at h
    simp only [if_neg hc, matchRouteByRoute, h]
    rfl

theorem firstMatchByRoute_root :
    firstMatchByRoute coreRoutes "GET" [] = (some rootRoute, none) := by
  decide

theorem firstMatchByRoute_health :
    firstMatchByRoute coreRoutes "GET" ["health"] = (some healthRoute, none) := by
  decide

theorem matchSegs_root_none (segs : List String) (x : String) (od : Option Nat) :
    matchSegs [] (segs ++ [x]) od = none := by
  cases segs <;> simp [matchSegs]

theorem matchSegs_health_none (segs : List String) (x : String) (od : Option Nat)
    (hx : x ≠ "health") : matchSegs [PatSeg.lit "health"] (segs ++ [x]) od = none := by
  match segs with
  | [] => simp [matchSegs, Ne.symm hx]
  | [a] => by_cases ha : "health" = a <;> simp [matchSegs, ha]
  | a :: b :: rest => by_cases ha : "health" = a <;> simp [matchSegs, ha]

theorem firstMatchByRoute_index (ts : List String) :
    firstMatchByRoute coreRoutes "GET" (ts ++ ["index.yaml"])
      = (some indexRoute, some [⟨"repo", String.intercalate "/" ts⟩]) := by
  have hroot := matchSegs_root_none ts "index.yaml" none
  have hhealth := matchSegs_health_none ts "index.yaml" none (by decide)
  have hdepth : routeDepth [PatSeg.tenant, PatSeg.lit "index.yaml"] (ts ++ ["index.yaml"])
      = some ts.length := by
    simp [routeDepth, hasTenant]
  have hidx : matchSegs [PatSeg.tenant, PatSeg.lit "index.yaml"] (ts ++ ["index.yaml"])
      (some ts.length) = some ([], [⟨"repo", String.intercalate "/" ts⟩]) := by
    simp [matchSegs]
  simp [firstMatchByRoute, coreRoutes, parsePattern_root, parsePattern_health,
    parsePattern_index, routeDepth, hasTenant, hroot, hhealth, hidx, paramsOf, indexRoute]

theorem firstMatchByRoute_chart (ts : List String) (file : String)
    (hfile : file ≠ "index.yaml") :
    firstMatchByRoute coreRoutes "GET" (ts ++ ["charts", file])
      = (some chartRoute,
          some [⟨"filename", file⟩, ⟨"repo", String.intercalate "/" ts⟩]) := by
  have happ : ts ++ ["charts", file] = (ts ++ ["charts"]) ++ [file] := by simp
  have hroot : matchSegs [] (ts ++ ["charts", file]) none = none := by
    rw [happ]
    exact matchSegs_root_none _ _ _
  have hhealth : matchSegs [PatSeg.lit "health"] (ts ++ ["charts", file]) none = none := by
    match ts with
    | [] => simp [matchSegs]
    | a :: rest =>
      by_cases ha : "health" = a
      · cases rest <;> simp [matchSegs, ha]
      · simp [matchSegs, ha]
  have hidx : matchSegs [PatSeg.tenant, PatSeg.lit "index.yaml"] (ts ++ ["charts", file])
      (some (ts.length + 1)) = none := by
    have hdrop : List.drop (ts.length + 1) (ts ++ ["charts", file]) = [file] := by
      rw [happ]
      have hlen : ts.length + 1 = (ts ++ ["charts"]).length := by simp
      rw [hlen, List.drop_left]
    simp [matchSegs, hdrop, Ne.symm hfile]
  have hchart : matchSegs [PatSeg.tenant, PatSeg.lit "charts", PatSeg.param "filename"]
      (ts ++ ["charts", file]) (some ts.length)
      = some ([⟨"filename", file⟩], [⟨"repo", String.intercalate "/" ts⟩]) := by
    simp [matchSegs]
  simp [firstMatchByRoute, coreRoutes, parsePattern_root, parsePattern_health,
    parsePattern_index, parsePattern_chart, routeDepth, hasTenant, hroot, hhealth, hidx,
    hchart, paramsOf, chartRoute]

/-- C1, as stated, fails, however the dynamic mode finds the depth: the
request path `/charts/index.yaml` is the well-formed index path of the tenant
`charts` (one segment) and also the well-formed chart path of the file
`index.yaml` under the empty tenant (no segment). With static depth 1 it is
matched by the index route with `repo = charts`, with static depth 0 by the
chart route with `filename = index.yaml`; the dynamic call is the same for
both, so no result of it equals both static results. -/
theorem router_equivalence_fails_on_ambiguous_path :
    (∀ t ∈ ["charts"], WellFormedSegment t) ∧ WellFormedSegment "index.yaml" ∧
    joinPath (["charts"] ++ ["index.yaml"]) = joinPath ([] ++ ["charts", "index.yaml"]) ∧
    matchRoute coreRoutes "GET" ("" ++ joinPath (["charts"] ++ ["index.yaml"])) ""
        ["charts"].length false
      = (some indexRoute, some [⟨"repo", "charts"⟩]) ∧
    matchRoute coreRoutes "GET" ("" ++ joinPath ([] ++ ["charts", "index.yaml"])) ""
        ([] : List String).length false
      = (some chartRoute, some [⟨"filename", "index.yaml"⟩, ⟨"repo", ""⟩]) ∧
    ∀ dynamicResult : Option Route × Option (List Param),
      ¬ (matchRoute coreRoutes "GET" ("" ++ joinPath (["charts"] ++ ["index.yaml"])) ""
            ["charts"].length false = dynamicResult ∧
          matchRoute coreRoutes "GET" ("" ++ joinPath ([] ++ ["charts", "index.yaml"])) ""
            ([] : List String).length false = dynamicResult) := by
  refine ⟨by decide, by decide, by decide, by decide, by decide, ?_⟩
  intro dynamicResult h
  have hsame := h.1.trans h.2.symm
  revert hsame
  decide

/-- C1 (amended): for the four core routes, every context path `c`, every
tenant path `ts` of well-formed segments and the static depth equal to its
length, static matching returns the same route and the same parameters as
dynamic matching on `c` (or `/`) and on `c/health` (these two for every static
depth `d`), on `c/<tenant>/charts/<file>` provided the file is not
`index.yaml`, and on `c/<tenant>/index.yaml` provided the tenant path does not
end in the segment `charts`: that is, on every well-formed path that does not
end in `/charts/index.yaml`. This holds for both readings of the dynamic
mode, `matchRoute` with the dynamic flag and `matchRouteByRoute`. -/
theorem router_equivalence (c : String) (ts : List String) (file : String) (d : Nat)
    (hts : ∀ t ∈ ts, WellFormedSegment t) (hfile : WellFormedSegment file) :
    (matchRoute coreRoutes "GET" (if c = "" then "/" else c) c d false
        = matchRoute coreRoutes "GET" (if c = "" then "/" else c) c 0 true ∧
      matchRoute coreRoutes "GET" (if c = "" then "/" else c) c d false
        = matchRouteByRoute coreRoutes "GET" (if c = "" then "/" else c) c) ∧
    (matchRoute coreRoutes "GET" (c ++ joinPath ["health"]) c d false
        = matchRoute coreRoutes "GET" (c ++ joinPath ["health"]) c 0 true ∧
      matchRoute coreRoutes "GET" (c ++ joinPath ["health"]) c d false
        = matchRouteByRoute coreRoutes "GET" (c ++ joinPath ["health"]) c) ∧
    (file ≠ "index.yaml" →
      matchRoute coreRoutes "GET" (c ++ joinPath (ts ++ ["charts", file])) c ts.length false
        = matchRoute coreRoutes "GET" (c ++ joinPath (ts ++ ["charts", file])) c 0 true ∧
      matchRoute coreRoutes "GET" (c ++ joinPath (ts ++ ["charts", file])) c ts.length false
        = matchRouteByRoute coreRoutes "GET" (c ++ joinPath (ts ++ ["charts", file])) c) ∧
    (ts.getLast? ≠ some "charts" →
      matchRoute coreRoutes "GET" (c ++ joinPath (ts ++ ["index.yaml"])) c ts.length false
        = matchRoute coreRoutes "GET" (c ++ joinPath (ts ++ ["index.yaml"])) c 0 true ∧
      matchRoute coreRoutes "GET" (c ++ joinPath (ts ++ ["index.yaml"])) c ts.length false
        = matchRouteByRoute coreRoutes "GET" (c ++ joinPath (ts ++ ["index.yaml"])) c) := by
  have hchart : ∀ t ∈ ts ++ ["charts", file], WellFormedSegment t :=
    wellFormed_append ts _ hts (by
      intro t ht
      simp only [List.mem_cons, List.mem_singleton, List.not_mem_nil, or_false] at ht
      rcases ht with h | h
      · subst h; exact wellFormed_charts
      · subst h; exact hfile)
  have hindex : ∀ t ∈ ts ++ ["index.yaml"], WellFormedSegment t :=
    wellFormed_append ts _ hts (by
      intro t ht
      simp only [List.mem_singleton] at ht
      subst ht; exact wellFormed_indexYaml)
  have hhealth : ∀ t ∈ ["health"], WellFormedSegment t := by decide
  refine ⟨⟨?_, ?_⟩, ⟨?_, ?_⟩, ?_, ?_⟩
  · rw [matchRoute_root, matchRoute_root, firstMatch_root, firstMatch_root]
  · rw [matchRoute_root, matchRouteByRoute_root, firstMatch_root, firstMatchByRoute_root]
  · rw [matchRoute_joinPath _ _ _ _ _ _ hhealth, matchRoute_joinPath _ _ _ _ _ _ hhealth,
      firstMatch_health, firstMatch_health]
  · rw [matchRoute_joinPath _ _ _ _ _ _ hhealth, matchRouteByRoute_joinPath _ _ _ _ hhealth,
      firstMatch_health, firstMatchByRoute_health]
  · intro hnotindex
    constructor
    · rw [matchRoute_joinPath _ _ _ _ _ _ hchart, matchRoute_joinPath _ _ _ _ _ _ hchart]
      simp only [if_true, Bool.false_eq_true, if_false, dynamicDepth_chart]
    · rw [matchRoute_joinPath _ _ _ _ _ _ hchart, matchRouteByRoute_joinPath _ _ _ _ hchart,
        firstMatchByRoute_chart ts file hnotindex]
      simpa using firstMatch_chart ts file
  · intro hlast
    constructor
    · rw [matchRoute_joinPath _ _ _ _ _ _ hindex, matchRoute_joinPath _ _ _ _ _ _ hindex]
      simp only [if_true, Bool.false_eq_true, if_false, dynamicDepth_index ts hlast]
    · rw [matchRoute_joinPath _ _ _ _ _ _ hindex, matchRouteByRoute_joinPath _ _ _ _ hindex,
        firstMatchByRoute_index ts]
      simpa using firstMatch_index ts

/-- The amended C1 at the context path `/x` and the tenant `myorg/myrepo`. -/
theorem router_equivalence_witness :
    (∀ t ∈ ["myorg", "myrepo"], WellFormedSegment t) ∧ WellFormedSegment "mychart-0.1.0.tgz" ∧
    "mychart-0.1.0.tgz" ≠ "index.yaml" ∧ ["myorg", "myrepo"].getLast? ≠ some "charts" ∧
    matchRoute coreRoutes "GET" ("/x" ++ joinPath (["myorg", "myrepo"] ++ ["index.yaml"])) "/x"
        ["myorg", "myrepo"].length false
      = matchRoute coreRoutes "GET" ("/x" ++ joinPath (["myorg", "myrepo"] ++ ["index.yaml"]))
        "/x" 0 true ∧
    matchRoute coreRoutes "GET"
        ("/x" ++ joinPath (["myorg", "myrepo"] ++ ["charts", "mychart-0.1.0.tgz"])) "/x"
        ["myorg", "myrepo"].length false
      = matchRouteByRoute coreRoutes "GET"
        ("/x" ++ joinPath (["myorg", "myrepo"] ++ ["charts", "mychart-0.1.0.tgz"])) "/x" :=
  ⟨by decide, by decide, by decide, by decide,
    ((router_equivalence "/x" ["myorg", "myrepo"] "mychart-0.1.0.tgz" 2 (by decide)
      (by decide)).2.2.2 (by decide)).1,
    ((router_equivalence "/x" ["myorg", "myrepo"] "mychart-0.1.0.tgz" 2 (by decide)
      (by decide)).2.2.1 (by decide)).2⟩

/-! ### Reserved names and extracted parameters -/

theorem wellFormed_pair (a b : String) (ha : WellFormedSegment a) (hb : WellFormedSegment b) :
    ∀ t ∈ [a, b], WellFormedSegment t := by
  intro t ht
  simp only [List.mem_cons, List.mem_singleton, List.not_mem_nil, or_false] at ht
  rcases ht with h | h
  · subst h; exact ha
  · subst h; exact hb

/-- C3: for every tenant path `ts` of well-formed segments, matched with the
static depth equal to its length (under any context path), the index path
`/<tenant>/index.yaml` yields exactly the parameters `[(repo, tenant)]` and the
chart path `/<tenant>/charts/<file>` exactly `[(filename, file), (repo, tenant)]`
in that order, where `tenant` is the segments joined by `/`, the empty string
for no segment. -/
theorem extracted_parameters (c : String) (ts : List String) (file : String)
    (hts : ∀ t ∈ ts, WellFormedSegment t) (hfile : WellFormedSegment file) :
    matchRoute coreRoutes "GET" (c ++ joinPath (ts ++ ["index.yaml"])) c ts.length false
      = (some indexRoute, some [⟨"repo", String.intercalate "/" ts⟩]) ∧
    matchRoute coreRoutes "GET" (c ++ joinPath (ts ++ ["charts", file])) c ts.length false
      = (some chartRoute,
          some [⟨"filename", file⟩, ⟨"repo", String.intercalate "/" ts⟩]) ∧
    String.intercalate "/" ([] : List String) = "" := by
  have hindex : ∀ t ∈ ts ++ ["index.yaml"], WellFormedSegment t :=
    wellFormed_append ts _ hts (by simpa using wellFormed_indexYaml)
  have hchart : ∀ t ∈ ts ++ ["charts", file], WellFormedSegment t :=
    wellFormed_append ts _ hts (wellFormed_pair _ _ wellFormed_charts hfile)
  refine ⟨?_, ?_, rfl⟩
  · rw [matchRoute_joinPath _ _ _ _ _ _ hindex]
    simpa using firstMatch_index ts
  · rw [matchRoute_joinPath _ _ _ _ _ _ hchart]
    simpa using firstMatch_chart ts file

/-- C3 at depth 3 with the tenant `myorg/myteam/myrepo` under `/x/y`. -/
theorem extracted_parameters_witness :
    (∀ t ∈ ["myorg", "myteam", "myrepo"], WellFormedSegment t) ∧
    matchRoute coreRoutes "GET"
        ("/x/y" ++ joinPath (["myorg", "myteam", "myrepo"] ++ ["charts", "mychart-0.1.0.tgz"]))
        "/x/y" 3 false
      = (some chartRoute,
          some [⟨"filename", "mychart-0.1.0.tgz"⟩, ⟨"repo", "myorg/myteam/myrepo"⟩]) :=
  ⟨by decide,
    (extracted_parameters "/x/y" ["myorg", "myteam", "myrepo"] "mychart-0.1.0.tgz"
      (by decide) (by decide)).2.1⟩

end Router

/-! ## Properties of the index read path -/

namespace Multitenant

/-- C4: when the tenant's cache entry initialises without error and its index
has at least one entry, `getIndexFile` returns that index with a nil error,
leaves the entry as it is, and calls neither the fetch coordinator nor the
regeneration coordinator (nor assigns to the entry). -/
theorem cache_hit (server : MultiTenantServer) (env : Collaborators) (repo : String)
    (entry : cacheEntry) (idx : Index)
    (hinit : env.initCacheEntry repo = Except.ok entry)
    (hidx : entry.RepoIndex = some idx) (hentries : idx.Entries ≠ []) :
    ∃ r, getIndexFile server env repo = some r ∧
      r.index = some idx ∧ r.err = none ∧ r.entry = some entry ∧
      ∀ ev ∈ r.trace,
        ev.isFetch = false ∧ ev.isRegeneration = false ∧ ev.isAssignment = false := by
  have hlen : ¬ idx.Entries.length = 0 := by
    intro h
    exact hentries (List.length_eq_zero.1 h)
  refine ⟨⟨some idx, none, some entry, [Event.initCacheEntry repo]⟩, ?_, rfl, rfl, rfl, ?_⟩
  · simp [getIndexFile, hinit, hidx, hlen]
  · intro ev hev
    simp only [List.mem_singleton] at hev
    subst hev
    exact ⟨rfl, rfl, rfl⟩

/-- C4 on a cache that holds `mychart-0.1.0`. -/
theorem cache_hit_witness :
    sampleIndex.Entries ≠ [] ∧
    ∃ r, getIndexFile (sampleServer 0 0)
        (sampleCollaborators ⟨some sampleIndex⟩ ⟨[], none⟩ ⟨none, none⟩
          (fun _ => Except.error "object not found")) "myrepo" = some r ∧
      r.index = some sampleIndex ∧ r.err = none ∧ r.entry = some ⟨some sampleIndex⟩ ∧
      ∀ ev ∈ r.trace,
        ev.isFetch = false ∧ ev.isRegeneration = false ∧ ev.isAssignment = false :=
  ⟨by decide,
    cache_hit (sampleServer 0 0)
      (sampleCollaborators ⟨some sampleIndex⟩ ⟨[], none⟩ ⟨none, none⟩
        (fun _ => Except.error "object not found")) "myrepo" ⟨some sampleIndex⟩ sampleIndex
      rfl rfl (by decide)⟩

/-- C5, as stated, fails: on a server with a cache refresh interval (here 1)
a cold read returns the empty index without calling the fetch coordinator;
and without a timer, when the fetch fails, the call returns the error
without computing any diff. -/
theorem cold_read_skips_fetch_on_timer :
    (getIndexFile (sampleServer 0 1)
        (sampleCollaborators ⟨some emptyIndex⟩ ⟨[sampleObject 100], none⟩ ⟨none, none⟩
          (fun _ => Except.error "object not found")) "myrepo")
      = some ⟨some emptyIndex, none, some ⟨some emptyIndex⟩, [Event.initCacheEntry "myrepo"]⟩ ∧
    Event.getChartList "myrepo" ∉ [Event.initCacheEntry "myrepo"] ∧
    (getIndexFile (sampleServer 0 0)
        (sampleCollaborators ⟨some emptyIndex⟩ ⟨[], some "listing failed"⟩ ⟨none, none⟩
          (fun _ => Except.error "object not found")) "myrepo")
      = some ⟨none, some ⟨500, "listing failed"⟩, some ⟨some emptyIndex⟩,
          [Event.initCacheEntry "myrepo", Event.getChartList "myrepo",
           Event.log Level.Error "listing failed" "myrepo"]⟩ := by
  refine ⟨by rfl, by decide, by rfl⟩

/-- C5 (amended): when the tenant's cache entry is empty, then on a server
without a cache refresh interval `getIndexFile` calls the fetch coordinator
for that tenant and, if the fetch succeeds, diffs the cached objects against
the fetched list (with the configured tolerance) before returning, while a
failed fetch is returned as an error without any diff; on a server with a
cache refresh interval it returns the empty cached index with a nil error and
calls neither. -/
theorem cold_read (server : MultiTenantServer) (env : Collaborators) (repo : String)
    (entry : cacheEntry) (idx : Index)
    (hinit : env.initCacheEntry repo = Except.ok entry)
    (hidx : entry.RepoIndex = some idx) (hempty : idx.Entries = []) :
    (server.CacheInterval = 0 →
      ∃ r, getIndexFile server env repo = some r ∧
        Event.getChartList repo ∈ r.trace ∧
        ((env.getChartList repo).err = none →
          Event.getObjectSliceDiff (indexObjects env idx)
            (env.getChartList repo).objects server.TimestampTolerance ∈ r.trace) ∧
        ((env.getChartList repo).err ≠ none →
          r.err ≠ none ∧
          ∀ cached fetched tolerance,
            Event.getObjectSliceDiff cached fetched tolerance ∉ r.trace)) ∧
    (server.CacheInterval ≠ 0 →
      getIndexFile server env repo
        = some ⟨some idx, none, some entry, [Event.initCacheEntry repo]⟩) := by
  constructor
  · intro hint
    cases hfo : (env.getChartList repo).err with
    | some errStr =>
      refine ⟨_, by
        simp only [getIndexFile, hinit, hidx, getRepoObjectSlice, hempty, hint, hfo]; rfl,
        ?_, ?_, ?_⟩
      · simp
      · intro h; cases h
      · intro _
        refine ⟨by simp, ?_⟩
        intro cached fetched tolerance hmem
        simp at hmem
    | none =>
      by_cases hchange : (env.GetObjectSliceDiff (indexObjects env idx)
          (env.getChartList repo).objects server.TimestampTolerance).Change = true
      · cases hir : (env.regenerateRepositoryIndex entry
            (env.GetObjectSliceDiff (indexObjects env idx)
              (env.getChartList repo).objects server.TimestampTolerance)).1.err with
        | some errStr =>
          refine ⟨_, by
            simp only [getIndexFile, hinit, hidx, getRepoObjectSlice, hempty, hint, hfo, hchange, hir]; rfl, ?_, ?_, ?_⟩
          · simp
          · intro _; simp
          · intro h; exact absurd rfl h
        | none =>
          refine ⟨_, by
            simp only [getIndexFile, hinit, hidx, getRepoObjectSlice, hempty, hint, hfo, hchange, hir]; rfl, ?_, ?_, ?_⟩
          · simp
          · intro _; simp
          · intro h; exact absurd rfl h
      · have hchange' : (env.GetObjectSliceDiff (indexObjects env idx)
            (env.getChartList repo).objects server.TimestampTolerance).Change = false := by
          simpa using hchange
        refine ⟨_, by
          simp only [getIndexFile, hinit, hidx, getRepoObjectSlice, hempty, hint, hfo, hchange']; rfl, ?_, ?_, ?_⟩
        · simp
        · intro _; simp
        · intro h; exact absurd rfl h
  · intro hint
    simp [getIndexFile, hinit, hidx, hint]

/-- The amended C5 on a server without a timer whose tenant holds one chart in
storage and nothing in the cache. -/
theorem cold_read_witness :
    (sampleServer 0 0).CacheInterval = 0 ∧
    ∃ r, getIndexFile (sampleServer 0 0)
        (sampleCollaborators ⟨some emptyIndex⟩ ⟨[sampleObject 100], none⟩
          ⟨some sampleIndex, none⟩ (fun _ => Except.error "object not found")) "myrepo"
        = some r ∧
      Event.getChartList "myrepo" ∈ r.trace :=
  ⟨rfl,
    match (cold_read (sampleServer 0 0)
      (sampleCollaborators ⟨some emptyIndex⟩ ⟨[sampleObject 100], none⟩
        ⟨some sampleIndex, none⟩ (fun _ => Except.error "object not found")) "myrepo"
      ⟨some emptyIndex⟩ emptyIndex rfl rfl rfl).1 rfl with
    | ⟨r, hr, hfetch, _⟩ => ⟨r, hr, hfetch⟩⟩

/-- C6: when the cache entry is empty, the fetch succeeds and the diff of the
cached objects against the fetched list reports no change, `getIndexFile`
returns the still-empty index of the entry with a nil error, leaves the entry
as it is, and neither calls the regeneration coordinator nor assigns to the
entry. (On a server with a cache refresh interval the same result is returned
without any fetch.) -/
theorem empty_tenant (server : MultiTenantServer) (env : Collaborators) (repo : String)
    (entry : cacheEntry) (idx : Index)
    (hinit : env.initCacheEntry repo = Except.ok entry)
    (hidx : entry.RepoIndex = some idx) (hempty : idx.Entries = [])
    (hfetch : (env.getChartList repo).err = none)
    (hdiff : (env.GetObjectSliceDiff (indexObjects env idx)
      (env.getChartList repo).objects server.TimestampTolerance).Change = false) :
    ∃ r, getIndexFile server env repo = some r ∧
      r.index = some idx ∧ idx.Entries = [] ∧ r.err = none ∧ r.entry = some entry ∧
      ∀ ev ∈ r.trace, ev.isRegeneration = false ∧ ev.isAssignment = false := by
  by_cases hint : server.CacheInterval = 0
  · refine ⟨⟨some idx, none, some entry,
        [Event.initCacheEntry repo, Event.getChartList repo,
         Event.getObjectSliceDiff (indexObjects env idx)
           (env.getChartList repo).objects server.TimestampTolerance,
         Event.log Level.Debug noChangeMessage repo]⟩, ?_, rfl, hempty, rfl, rfl, ?_⟩
    · simp [getIndexFile, hinit, hidx, getRepoObjectSlice, hempty, hint, hfetch, hdiff]
    · intro ev hev
      simp only [List.mem_cons, List.mem_singleton, List.not_mem_nil, or_false] at hev
      rcases hev with h | h | h | h <;> subst h <;> exact ⟨rfl, rfl⟩
  · refine ⟨⟨some idx, none, some entry, [Event.initCacheEntry repo]⟩, ?_, rfl, hempty, rfl,
      rfl, ?_⟩
    · simp [getIndexFile, hinit, hidx, hint]
    · intro ev hev
      simp only [List.mem_singleton] at hev
      subst hev
      exact ⟨rfl, rfl⟩

/-- C6 on a tenant with nothing in the cache and an empty backend listing: the
diff of two empty listings reports no change. -/
theorem empty_tenant_witness :
    (GetObjectSliceDiff [] [] 0).Change = false ∧
    ∃ r, getIndexFile (sampleServer 0 0)
        (sampleCollaborators ⟨some emptyIndex⟩ ⟨[], none⟩ ⟨none, some "not called"⟩
          (fun _ => Except.error "object not found")) "myrepo" = some r ∧
      r.index = some emptyIndex ∧ emptyIndex.Entries = [] ∧ r.err = none ∧
      r.entry = some ⟨some emptyIndex⟩ ∧
      ∀ ev ∈ r.trace, ev.isRegeneration = false ∧ ev.isAssignment = false :=
  ⟨by decide,
    empty_tenant (sampleServer 0 0)
      (sampleCollaborators ⟨some emptyIndex⟩ ⟨[], none⟩ ⟨none, some "not called"⟩
        (fun _ => Except.error "object not found")) "myrepo" ⟨some emptyIndex⟩ emptyIndex
      rfl rfl rfl rfl (by decide)⟩

/-- C7: provided the cache entry, when it initialises, has an allocated
index (else the call dereferences nil), `getIndexFile` returns, and it returns
a non-nil `HTTPError` exactly when one of the steps it ran failed
(initialisation of the cache entry, the fetch, or the regeneration); the error
then has status 500 and the text of the failing step's error as its
message. -/
theorem no_error_swallowed (server : MultiTenantServer) (env : Collaborators) (repo : String)
    (halloc : ∀ entry, env.initCacheEntry repo = Except.ok entry → entry.RepoIndex ≠ none) :
    ∃ r, getIndexFile server env repo = some r ∧
      (r.err ≠ none ↔ ∃ msg, stepFailedWith env repo r.trace msg) ∧
      (∀ msg, stepFailedWith env repo r.trace msg → r.err = some ⟨500, msg⟩) := by
  cases hinit : env.initCacheEntry repo with
  | error errStr =>
    refine ⟨_, by simp only [getIndexFile, hinit]; rfl, ?_, ?_⟩
    · simp [stepFailedWith, hinit]
    · intro msg h
      simp [stepFailedWith, hinit] at h
      simp [h]
  | ok entry =>
    cases hidx : entry.RepoIndex with
    | none => exact absurd hidx (halloc entry hinit)
    | some idx =>
      by_cases hcold : idx.Entries.length = 0 ∧ server.CacheInterval = 0
      · cases hfo : (env.getChartList repo).err with
        | some errStr =>
          refine ⟨_, by simp only [getIndexFile, hinit, hidx, getRepoObjectSlice, hcold, hfo]; rfl, ?_, ?_⟩
          · simp [stepFailedWith, hinit, hfo]
          · intro msg h
            simp [stepFailedWith, hinit, hfo] at h
            simp [h]
        | none =>
          by_cases hchange : (env.GetObjectSliceDiff (indexObjects env idx)
              (env.getChartList repo).objects server.TimestampTolerance).Change = true
          · cases hir : (env.regenerateRepositoryIndex entry
                (env.GetObjectSliceDiff (indexObjects env idx)
                  (env.getChartList repo).objects server.TimestampTolerance)).1.err with
            | some errStr =>
              refine ⟨_, by
                simp only [getIndexFile, hinit, hidx, getRepoObjectSlice, hcold, hfo, hchange, hir]; rfl, ?_, ?_⟩
              · simp only [ne_eq, reduceCtorEq, not_false_eq_true, true_iff]
                exact ⟨errStr, Or.inr (Or.inr ⟨entry, _, by simp, hir⟩)⟩
              · intro msg h
                rcases h with h | ⟨_, h⟩ | ⟨e, d, hmem, h⟩
                · simp [hinit] at h
                · simp [hfo] at h
                · simp at hmem
                  obtain ⟨he, hd⟩ := hmem
                  subst he hd
                  rw [hir] at h
                  simp at h
                  simp [h]
            | none =>
              refine ⟨_, by
                simp only [getIndexFile, hinit, hidx, getRepoObjectSlice, hcold, hfo, hchange, hir]; rfl, ?_, ?_⟩
              · simp only [ne_eq, not_true_eq_false, false_iff, not_exists]
                intro msg h
                rcases h with h | ⟨_, h⟩ | ⟨e, d, hmem, h⟩
                · simp [hinit] at h
                · simp [hfo] at h
                · simp at hmem
                  obtain ⟨he, hd⟩ := hmem
                  subst he hd
                  rw [hir] at h
                  simp at h
              · intro msg h
                rcases h with h | ⟨_, h⟩ | ⟨e, d, hmem, h⟩
                · simp [hinit] at h
                · simp [hfo] at h
                · simp at hmem
                  obtain ⟨he, hd⟩ := hmem
                  subst he hd
                  rw [hir] at h
                  simp at h
          · have hchange' : (env.GetObjectSliceDiff (indexObjects env idx)
                (env.getChartList repo).objects server.TimestampTolerance).Change = false := by
              simpa using hchange
            refine ⟨_, by
              simp only [getIndexFile, hinit, hidx, getRepoObjectSlice, hcold, hfo, hchange']; rfl, ?_, ?_⟩
            · simp [stepFailedWith, hinit, hfo]
            · intro msg h
              simp [stepFailedWith, hinit, hfo] at h
      · refine ⟨_, by simp only [getIndexFile, hinit, hidx, getRepoObjectSlice, hcold]; rfl, ?_, ?_⟩
        · simp [stepFailedWith, hinit]
        · intro msg h
          simp [stepFailedWith, hinit] at h

/-- C7 on a cold tenant whose backend listing fails. -/
theorem no_error_swallowed_witness :
    ∃ r, getIndexFile (sampleServer 0 0)
        (sampleCollaborators ⟨some emptyIndex⟩ ⟨[], some "listing failed"⟩ ⟨none, none⟩
          (fun _ => Except.error "object not found")) "myrepo" = some r ∧
      (r.err ≠ none ↔ ∃ msg, stepFailedWith
        (sampleCollaborators ⟨some emptyIndex⟩ ⟨[], some "listing failed"⟩ ⟨none, none⟩
          (fun _ => Except.error "object not found")) "myrepo" r.trace msg) ∧
      (∀ msg, stepFailedWith
        (sampleCollaborators ⟨some emptyIndex⟩ ⟨[], some "listing failed"⟩ ⟨none, none⟩
          (fun _ => Except.error "object not found")) "myrepo" r.trace msg →
        r.err = some ⟨500, msg⟩) :=
  no_error_swallowed (sampleServer 0 0)
    (sampleCollaborators ⟨some emptyIndex⟩ ⟨[], some "listing failed"⟩ ⟨none, none⟩
      (fun _ => Except.error "object not found")) "myrepo"
    (by
      intro entry h
      have he : (⟨some emptyIndex⟩ : cacheEntry) = entry := Except.ok.inj h
      subst he
      simp)

/-! ## Properties of the object read path -/

/-- C8: whenever the storage backend fails to return the object stored at
`path.Join(repo, filename)`, `getStorageObject` returns a nil object together
with `HTTPError{404, "object not found"}`, and the request handler answers
with status 404. -/
theorem missing_object (env : Collaborators) (repo filename errStr : String)
    (hget : env.GetObject (pathJoin repo filename) = Except.error errStr) :
    (getStorageObject env repo filename).object = none ∧
    (getStorageObject env repo filename).err = some ⟨404, "object not found"⟩ ∧
    ∀ params, paramValue params "repo" = repo → paramValue params "filename" = filename →
      getStorageObjectRequestHandler env params = Response.json 404 "object not found" ∧
      (getStorageObjectRequestHandler env params).status = 404 := by
  have h : getStorageObject env repo filename
      = ⟨none, some ⟨404, "object not found"⟩,
          [Event.getObject (pathJoin repo filename),
           Event.logObject Level.Warn errStr repo filename]⟩ := by
    simp [getStorageObject, hget]
  refine ⟨by rw [h], by rw [h], ?_⟩
  intro params hrepo hfile
  have hh : getStorageObjectRequestHandler env params = Response.json 404 "object not found" := by
    simp [getStorageObjectRequestHandler, hrepo, hfile, h]
  exact ⟨hh, by rw [hh]; rfl⟩

/-- C8 on the request `GET /charts/fakechart-0.1.0` of `server_test.go`. -/
theorem missing_object_witness :
    (getStorageObject
        (sampleCollaborators ⟨some emptyIndex⟩ ⟨[], none⟩ ⟨none, none⟩
          (fun _ => Except.error "no such file or directory")) "org1" "fakechart-0.1.0").err
      = some ⟨404, "object not found"⟩ :=
  (missing_object
    (sampleCollaborators ⟨some emptyIndex⟩ ⟨[], none⟩ ⟨none, none⟩
      (fun _ => Except.error "no such file or directory")) "org1" "fakechart-0.1.0"
    "no such file or directory" rfl).2.1

/-- C9 fails on the code: a backend failure that is not the absence of the
object (here a refused permission on an object that exists) is answered with
`HTTPError{404, "object not found"}`, not with a 5xx status. -/
theorem backend_failure_reported_as_not_found :
    (getStorageObject
        (sampleCollaborators ⟨some emptyIndex⟩ ⟨[], none⟩ ⟨none, none⟩
          (fun _ => Except.error "permission denied")) "org1" "mychart-0.1.0.tgz").err
      = some ⟨404, "object not found"⟩ ∧
    (getStorageObjectRequestHandler
        (sampleCollaborators ⟨some emptyIndex⟩ ⟨[], none⟩ ⟨none, none⟩
          (fun _ => Except.error "permission denied"))
        [⟨"filename", "mychart-0.1.0.tgz"⟩, ⟨"repo", "org1"⟩]).status = 404 ∧
    ¬ (500 ≤ (getStorageObjectRequestHandler
        (sampleCollaborators ⟨some emptyIndex⟩ ⟨[], none⟩ ⟨none, none⟩
          (fun _ => Except.error "permission denied"))
        [⟨"filename", "mychart-0.1.0.tgz"⟩, ⟨"repo", "org1"⟩]).status) := by
  refine ⟨by rfl, by decide, by decide⟩

/-! ## Properties of the diff -/

theorem mem_updated_iff (cached current : List Object) (tol : Duration) (c : Object) :
    c ∈ (GetObjectSliceDiff cached current tol).Updated ↔
      c ∈ current ∧ ∃ p, lookupPath cached c.Path = some p ∧ isUpdated tol p c = true := by
  simp only [GetObjectSliceDiff, List.mem_filter]
  constructor
  · rintro ⟨hc, h⟩
    refine ⟨hc, ?_⟩
    cases hp : lookupPath cached c.Path with
    | none => simp [hp] at h
    | some p => exact ⟨p, rfl, by simpa [hp] using h⟩
  · rintro ⟨hc, p, hp, h⟩
    exact ⟨hc, by simpa [hp] using h⟩

theorem change_eq_false_iff (cached current : List Object) (tol : Duration) :
    (GetObjectSliceDiff cached current tol).Change = false ↔
      (GetObjectSliceDiff cached current tol).Removed = [] ∧
      (GetObjectSliceDiff cached current tol).Added = [] ∧
      (GetObjectSliceDiff cached current tol).Updated = [] := by
  simp [GetObjectSliceDiff, List.isEmpty_iff, and_assoc]

theorem samePaths_removed (cached current : List Object) (tol : Duration)
    (h : samePaths cached current = true) :
    (GetObjectSliceDiff cached current tol).Removed = [] ∧
    (GetObjectSliceDiff cached current tol).Added = [] := by
  simp only [samePaths, Bool.and_eq_true, List.all_eq_true] at h
  constructor
  · simp only [GetObjectSliceDiff, List.filter_eq_nil_iff]
    intro o ho
    have := h.1 o ho
    cases hl : lookupPath current o.Path <;> simp_all
  · simp only [GetObjectSliceDiff, List.filter_eq_nil_iff]
    intro o ho
    have := h.2 o ho
    cases hl : lookupPath cached o.Path <;> simp_all

/-- C10: let two listings hold the same paths and let `c` be a current object
whose cached counterpart is `p`. If their timestamps differ by exactly the
tolerance, `c` is not reported as updated, and if no other object differs by
more than the tolerance the diff reports no change. If they differ by the
tolerance plus one, `c` is reported as updated and the diff reports a
change. -/
theorem tolerance_boundary (cached current : List Object) (tol : Duration) (c p : Object)
    (hsame : samePaths cached current = true)
    (hc : c ∈ current) (hp : lookupPath cached c.Path = some p) :
    (((c.LastModified - p.LastModified).natAbs : Int) = tol →
      c ∉ (GetObjectSliceDiff cached current tol).Updated ∧
      ((∀ c' ∈ current, c' ≠ c → ∀ p', lookupPath cached c'.Path = some p' →
          ((c'.LastModified - p'.LastModified).natAbs : Int) ≤ tol) →
        (GetObjectSliceDiff cached current tol).Change = false)) ∧
    (((c.LastModified - p.LastModified).natAbs : Int) = tol + 1 →
      c ∈ (GetObjectSliceDiff cached current tol).Updated ∧
      (GetObjectSliceDiff cached current tol).Change = true) := by
  constructor
  · intro hexact
    have hnot : c ∉ (GetObjectSliceDiff cached current tol).Updated := by
      rw [mem_updated_iff]
      rintro ⟨_, q, hq, hupd⟩
      rw [hp] at hq
      cases hq
      simp only [isUpdated, decide_eq_true_eq] at hupd
      rw [hexact] at hupd
      exact lt_irrefl _ hupd
    refine ⟨hnot, ?_⟩
    intro hothers
    rw [change_eq_false_iff]
    refine ⟨(samePaths_removed cached current tol hsame).1,
      (samePaths_removed cached current tol hsame).2, ?_⟩
    rw [List.eq_nil_iff_forall_not_mem]
    intro c' hc'
    by_cases hcc : c' = c
    · subst hcc
      exact hnot hc'
    · rw [mem_updated_iff] at hc'
      obtain ⟨hmem, q, hq, hupd⟩ := hc'
      have hle := hothers c' hmem hcc q hq
      simp only [isUpdated, decide_eq_true_eq] at hupd
      exact absurd hupd (not_lt.2 hle)
  · intro hplus
    have hmem : c ∈ (GetObjectSliceDiff cached current tol).Updated := by
      rw [mem_updated_iff]
      refine ⟨hc, p, hp, ?_⟩
      simp only [isUpdated, decide_eq_true_eq]
      rw [hplus]
      exact Int.lt_succ_self tol
    refine ⟨hmem, ?_⟩
    cases hch : (GetObjectSliceDiff cached current tol).Change with
    | true => rfl
    | false =>
      rw [change_eq_false_iff] at hch
      rw [hch.2.2] at hmem
      simp at hmem

/-- C10 with a tolerance of 5: a timestamp moved from 100 to 105 is not an
update and reports no change; moved from 100 to 106 it is an update and
reports a change. -/
theorem tolerance_boundary_witness :
    samePaths [sampleObject 100] [sampleObject 105] = true ∧
    sampleObject 105 ∉ (GetObjectSliceDiff [sampleObject 100] [sampleObject 105] 5).Updated ∧
    (GetObjectSliceDiff [sampleObject 100] [sampleObject 105] 5).Change = false ∧
    sampleObject 106 ∈ (GetObjectSliceDiff [sampleObject 100] [sampleObject 106] 5).Updated ∧
    (GetObjectSliceDiff [sampleObject 100] [sampleObject 106] 5).Change = true :=
  ⟨by decide,
    ((tolerance_boundary [sampleObject 100] [sampleObject 105] 5 (sampleObject 105)
      (sampleObject 100) (by decide) (by decide) (by decide)).1 (by decide)).1,
    ((tolerance_boundary [sampleObject 100] [sampleObject 105] 5 (sampleObject 105)
      (sampleObject 100) (by decide) (by decide) (by decide)).1 (by decide)).2
      (by
        intro c' hc' hne
        simp only [List.mem_singleton] at hc'
        exact absurd hc' hne),
    (tolerance_boundary [sampleObject 100] [sampleObject 106] 5 (sampleObject 106)
      (sampleObject 100) (by decide) (by decide) (by decide)).2 (by decide)⟩

end Multitenant

/-! ## Literal routes and the context path -/

namespace Router

theorem stripPrefix_eq_none (p s : List Char) (h : ¬ p <+: s) : stripPrefix p s = none := by
  induction p generalizing s with
  | nil => exact absurd (List.nil_prefix) h
  | cons a p ih =>
    cases s with
    | nil => rfl
    | cons b s =>
      by_cases hab : a = b
      · subst hab
        have hps : ¬ p <+: s := fun hp => h ((List.prefix_cons_inj a).2 hp)
        simp [stripPrefix, ih s hps]
      · simp [stripPrefix, hab]

/-- C14: for every static depth `d` and in dynamic mode, and for every context
path `c`, the request for `c` itself (`/` when `c` is empty) is matched by the
route `GET /` and the request for `c/health` by the route `GET /health`, both
with a nil parameter list. -/
theorem literal_routes (c : String) (d : Nat) :
    matchRoute coreRoutes "GET" (if c = "" then "/" else c) c d false
      = (some rootRoute, none) ∧
    matchRoute coreRoutes "GET" (if c = "" then "/" else c) c 0 true
      = (some rootRoute, none) ∧
    matchRoute coreRoutes "GET" (c ++ "/health") c d false = (some healthRoute, none) ∧
    matchRoute coreRoutes "GET" (c ++ "/health") c 0 true = (some healthRoute, none) := by
  have hhealth : ∀ t ∈ ["health"], WellFormedSegment t := by decide
  have hpath : "/health" = joinPath ["health"] := by decide
  refine ⟨?_, ?_, ?_, ?_⟩
  · rw [matchRoute_root, firstMatch_root]
  · rw [matchRoute_root, firstMatch_root]
  · rw [hpath, matchRoute_joinPath _ _ _ _ _ _ hhealth, firstMatch_health]
  · rw [hpath, matchRoute_joinPath _ _ _ _ _ _ hhealth, firstMatch_health]

/-- C15: when the request path does not begin with the configured context
path (which is then not empty), the match fails with `(nil, nil)`, whatever
the route table, the method, the depth and the depth mode. -/
theorem context_path_absent (routes : List Route) (method url c : String) (d : Nat)
    (dyn : Bool) (h : ¬ c.data <+: url.data) :
    matchRoute routes method url c d dyn = (none, none) ∧ c ≠ "" := by
  constructor
  · simp [matchRoute, stripPrefix_eq_none c.data url.data h]
  · intro hc
    subst hc
    exact h List.nil_prefix

/-- C15 on a request outside the context path `/x`. -/
theorem context_path_absent_witness :
    ¬ "/x".data <+: "/y/index.yaml".data ∧
    matchRoute coreRoutes "GET" "/y/index.yaml" "/x" 1 true = (none, none) :=
  ⟨by decide,
    (context_path_absent coreRoutes "GET" "/y/index.yaml" "/x" 1 true (by decide)).1⟩

end Router

/-! ## Successful object reads and the objects of the index -/

namespace Multitenant

/-- C16: whenever the backend returns an object at `path.Join(repo, filename)`,
`getStorageObject` returns a nil error and a `StorageObject` that wraps exactly
that object with the content type `application/x-tar`; the request handler
answers 200 with that content type and the object's content. -/
theorem successful_object_read (env : Collaborators) (repo filename : String)
    (object : Object) (hget : env.GetObject (pathJoin repo filename) = Except.ok object) :
    (getStorageObject env repo filename).err = none ∧
    (getStorageObject env repo filename).object = some ⟨object, "application/x-tar"⟩ ∧
    ∀ params, paramValue params "repo" = repo → paramValue params "filename" = filename →
      getStorageObjectRequestHandler env params
        = Response.data 200 "application/x-tar" object.Content := by
  have h : getStorageObject env repo filename
      = ⟨some ⟨object, chartPackageContentType⟩, none,
          [Event.getObject (pathJoin repo filename)]⟩ := by
    simp [getStorageObject, hget]
  refine ⟨by rw [h], by rw [h]; rfl, ?_⟩
  intro params hrepo hfile
  simp [getStorageObjectRequestHandler, hrepo, hfile, h, chartPackageContentType]

/-- C16 on a backend that holds `org1/mychart-0.1.0.tgz`. -/
theorem successful_object_read_witness :
    (getStorageObject
        (sampleCollaborators ⟨some emptyIndex⟩ ⟨[], none⟩ ⟨none, none⟩
          (fun path =>
            if path = "org1/mychart-0.1.0.tgz" then Except.ok (sampleObject 100)
            else Except.error "no such file or directory"))
        "org1" "mychart-0.1.0.tgz").object
      = some ⟨sampleObject 100, "application/x-tar"⟩ :=
  (successful_object_read
    (sampleCollaborators ⟨some emptyIndex⟩ ⟨[], none⟩ ⟨none, none⟩
      (fun path =>
        if path = "org1/mychart-0.1.0.tgz" then Except.ok (sampleObject 100)
        else Except.error "no such file or directory"))
    "org1" "mychart-0.1.0.tgz" (sampleObject 100)
    (by
      have hpath : pathJoin "org1" "mychart-0.1.0.tgz" = "org1/mychart-0.1.0.tgz" := by decide
      simp [sampleCollaborators, hpath])).2.1

theorem splitSlash_append (a b : List Char) :
    Router.splitSlash (a ++ '/' :: b) = Router.splitSlash a ++ Router.splitSlash b := by
  induction a with
  | nil => simp [Router.splitSlash]
  | cons c a ih =>
    by_cases hc : c = '/'
    · subst hc
      simp [Router.splitSlash, ih]
    · cases hs : Router.splitSlash a with
      | nil => exact absurd hs (Router.splitSlash_ne_nil a)
      | cons x xs => simp [Router.splitSlash, hc, ih, hs]

/-- The last element of `dir/name` is `name`. -/
theorem pathBase_join (dir name : String) (hname : Router.WellFormedSegment name) :
    pathBase (dir ++ "/" ++ name) = name := by
  have hdata : (dir ++ "/" ++ name).data = dir.data ++ '/' :: name.data := by
    simp [String.data_append]
  have hne : dir ++ "/" ++ name ≠ "" := by
    intro h
    have := congrArg String.data h
    rw [hdata] at this
    simp at this
  have hnonempty : (!name.data.isEmpty) = true := by
    cases hd : name.data with
    | nil => exact absurd hd hname.1
    | cons x xs => rfl
  simp only [pathBase, if_neg hne, hdata, splitSlash_append,
    Router.splitSlash_seg name.data hname.2, List.filter_append, List.filter_cons,
    List.filter_nil, hnonempty, if_true, List.getLast?_append, List.getLast?_singleton]
  rfl

/-- The last element of a path of one segment is that segment. -/
theorem pathBase_segment (name : String) (hname : Router.WellFormedSegment name) :
    pathBase name = name := by
  have hne : name ≠ "" := by
    intro h
    subst h
    exact hname.1 rfl
  have hnonempty : (!name.data.isEmpty) = true := by
    cases hd : name.data with
    | nil => exact absurd hd hname.1
    | cons x xs => rfl
  simp [pathBase, hne, Router.splitSlash_seg name.data hname.2, hnonempty]

/-- C17: for every chart version with at least one URL, the storage object
made from it has the version's creation time as `LastModified`, the last path
element of the first URL as `Path` (for a URL `dir/name` that is `name`, for a
URL of one segment the URL itself), the chart's name and version as
`Meta.Name` and `Meta.Version`, and an empty `Content`. -/
theorem storage_object_from_chart_version (chartVersion : ChartVersion) (url : String)
    (rest : List String) (hurls : chartVersion.URLs = url :: rest) :
    ∃ object, StorageObjectFromChartVersion chartVersion = some object ∧
      object.LastModified = chartVersion.Created ∧
      object.Path = pathBase url ∧
      (∀ dir name, Router.WellFormedSegment name → url = dir ++ "/" ++ name →
        object.Path = name) ∧
      (Router.WellFormedSegment url → object.Path = url) ∧
      object.Meta.Name = chartVersion.Metadata.Name ∧
      object.Meta.Version = chartVersion.Metadata.Version ∧
      object.Content = [] := by
  refine ⟨⟨pathBase url, [], chartVersion.Created,
    ⟨chartVersion.Metadata.Name, chartVersion.Metadata.Version⟩⟩, ?_, rfl, rfl, ?_, ?_, rfl,
    rfl, rfl⟩
  · simp [StorageObjectFromChartVersion, hurls]
  · intro dir name hname hurl
    subst hurl
    exact pathBase_join dir name hname
  · intro hurl
    exact pathBase_segment url hurl

/-- C17 on the chart version of `chart_test.go`. -/
theorem storage_object_from_chart_version_witness :
    ∃ object,
      StorageObjectFromChartVersion
          ⟨⟨"mychart", "0.1.0"⟩, ["charts/mychart-0.1.0"], 1700000000⟩ = some object ∧
      object.LastModified = 1700000000 ∧ object.Path = "mychart-0.1.0" ∧
      object.Meta.Name = "mychart" ∧ object.Meta.Version = "0.1.0" ∧ object.Content = [] :=
  match storage_object_from_chart_version
      ⟨⟨"mychart", "0.1.0"⟩, ["charts/mychart-0.1.0"], 1700000000⟩ "charts/mychart-0.1.0" []
      rfl with
  | ⟨object, hobject, hmodified, _, hpath, _, hname, hversion, hcontent⟩ =>
    ⟨object, hobject, hmodified,
      hpath "charts" "mychart-0.1.0" (by decide) (by decide), hname, hversion, hcontent⟩

theorem foldl_append_versions (f : ChartVersion → Object) (versions : List ChartVersion)
    (acc : List Object) :
    versions.foldl (fun objects chartVersion => objects ++ [f chartVersion]) acc
      = acc ++ versions.map f := by
  induction versions generalizing acc with
  | nil => simp
  | cons v vs ih => simp [ih]

theorem foldl_append_entries (f : ChartVersion → Object)
    (entries : List (String × List ChartVersion)) (acc : List Object) :
    entries.foldl
        (fun objects e =>
          e.2.foldl (fun objects chartVersion => objects ++ [f chartVersion]) objects) acc
      = acc ++ (entries.flatMap (fun e => e.2)).map f := by
  induction entries generalizing acc with
  | nil => simp
  | cons e es ih =>
    simp only [List.foldl_cons, List.flatMap_cons, List.map_append]
    rw [ih, foldl_append_versions, List.append_assoc]

theorem length_flatMap_versions (entries : List (String × List ChartVersion)) :
    (entries.flatMap (fun e => e.2)).length = (entries.map (fun e => e.2.length)).sum := by
  induction entries with
  | nil => rfl
  | cons e es ih => simp [List.flatMap_cons, ih]

/-- C19: for an entry with an allocated index, `getRepoObjectSlice` returns
the conversions of the chart versions of the index, chart name after chart
name and version after version, each version exactly once; so its length is
the sum over the chart names of the numbers of versions, and it is empty when
the index has no entries. (With a nil index the call dereferences nil.) -/
theorem repo_object_slice (env : Collaborators) (entry : cacheEntry) (idx : Index)
    (hidx : entry.RepoIndex = some idx) :
    getRepoObjectSlice env entry
      = some ((idx.Entries.flatMap (fun e => e.2)).map env.StorageObjectFromChartVersion) ∧
    (∃ objects, getRepoObjectSlice env entry = some objects ∧
      objects.length = (idx.Entries.map (fun e => e.2.length)).sum) ∧
    (idx.Entries = [] → getRepoObjectSlice env entry = some []) := by
  have h : getRepoObjectSlice env entry
      = some ((idx.Entries.flatMap (fun e => e.2)).map env.StorageObjectFromChartVersion) := by
    simp [getRepoObjectSlice, hidx, indexObjects, foldl_append_entries]
  refine ⟨h, ⟨_, h, ?_⟩, ?_⟩
  · rw [List.length_map, length_flatMap_versions]
  · intro hempty
    rw [h, hempty]
    rfl

/-- An index with two versions of `mychart` and one of `other`. -/
theorem repo_object_slice_witness :
    getRepoObjectSlice
        (sampleCollaborators ⟨some emptyIndex⟩ ⟨[], none⟩ ⟨none, none⟩
          (fun _ => Except.error "object not found"))
        ⟨some ⟨[("mychart",
                  [⟨⟨"mychart", "0.1.0"⟩, ["mychart-0.1.0.tgz"], 100⟩,
                   ⟨⟨"mychart", "0.2.0"⟩, ["mychart-0.2.0.tgz"], 200⟩]),
                ("other", [⟨⟨"other", "1.0.0"⟩, ["other-1.0.0.tgz"], 300⟩])], []⟩⟩
      = some [⟨"mychart-0.1.0.tgz", [], 100, ⟨"mychart", "0.1.0"⟩⟩,
              ⟨"mychart-0.2.0.tgz", [], 200, ⟨"mychart", "0.2.0"⟩⟩,
              ⟨"other-1.0.0.tgz", [], 300, ⟨"other", "1.0.0"⟩⟩] :=
  (repo_object_slice
    (sampleCollaborators ⟨some emptyIndex⟩ ⟨[], none⟩ ⟨none, none⟩
      (fun _ => Except.error "object not found"))
    ⟨some ⟨[("mychart",
              [⟨⟨"mychart", "0.1.0"⟩, ["mychart-0.1.0.tgz"], 100⟩,
               ⟨⟨"mychart", "0.2.0"⟩, ["mychart-0.2.0.tgz"], 200⟩]),
            ("other", [⟨⟨"other", "1.0.0"⟩, ["other-1.0.0.tgz"], 300⟩])], []⟩⟩
    ⟨[("mychart",
        [⟨⟨"mychart", "0.1.0"⟩, ["mychart-0.1.0.tgz"], 100⟩,
         ⟨⟨"mychart", "0.2.0"⟩, ["mychart-0.2.0.tgz"], 200⟩]),
      ("other", [⟨⟨"other", "1.0.0"⟩, ["other-1.0.0.tgz"], 300⟩])], []⟩ rfl).1.trans
    (by decide)

end Multitenant

/-! ## Writes to the cache entry on the read path -/

namespace Multitenant

/-- The five ways through `getIndexFile` once the cache entry is initialised
with an allocated index: cache hit (or a server on a timer), failed fetch, no
change, failed regeneration, successful regeneration. -/
theorem getIndexFile_cases (server : MultiTenantServer) (env : Collaborators) (repo : String)
    (entry : cacheEntry) (idx : Index)
    (hinit : env.initCacheEntry repo = Except.ok entry)
    (hidx : entry.RepoIndex = some idx) :
    getIndexFile server env repo
        = some ⟨some idx, none, some entry, [Event.initCacheEntry repo]⟩ ∨
    (∃ errStr, (env.getChartList repo).err = some errStr ∧
      getIndexFile server env repo
        = some ⟨none, some ⟨500, errStr⟩, some entry,
            [Event.initCacheEntry repo, Event.getChartList repo,
             Event.log Level.Error errStr repo]⟩) ∨
    ((env.getChartList repo).err = none ∧
      getIndexFile server env repo
        = some ⟨some idx, none, some entry,
            [Event.initCacheEntry repo, Event.getChartList repo,
             Event.getObjectSliceDiff (indexObjects env idx) (env.getChartList repo).objects
               server.TimestampTolerance,
             Event.log Level.Debug noChangeMessage repo]⟩) ∨
    (∃ errStr, (env.getChartList repo).err = none ∧
      (readRegeneration server env repo entry idx).1.err = some errStr ∧
      getIndexFile server env repo
        = some ⟨(readRegeneration server env repo entry idx).1.index, some ⟨500, errStr⟩,
            some (readRegeneration server env repo entry idx).2,
            [Event.initCacheEntry repo, Event.getChartList repo,
             Event.getObjectSliceDiff (indexObjects env idx) (env.getChartList repo).objects
               server.TimestampTolerance,
             Event.regenerateRepositoryIndex entry (readDiff server env repo idx),
             Event.log Level.Error errStr repo]⟩) ∨
    ((env.getChartList repo).err = none ∧
      (readRegeneration server env repo entry idx).1.err = none ∧
      getIndexFile server env repo
        = some ⟨(readRegeneration server env repo entry idx).1.index, none,
            some { (readRegeneration server env repo entry idx).2 with
              RepoIndex := (readRegeneration server env repo entry idx).1.index },
            [Event.initCacheEntry repo, Event.getChartList repo,
             Event.getObjectSliceDiff (indexObjects env idx) (env.getChartList repo).objects
               server.TimestampTolerance,
             Event.regenerateRepositoryIndex entry (readDiff server env repo idx),
             Event.assignRepoIndex (readRegeneration server env repo entry idx).1.index]⟩) := by
  by_cases hcold : idx.Entries.length = 0 ∧ server.CacheInterval = 0
  · cases hfo : (env.getChartList repo).err with
    | some errStr =>
      refine Or.inr (Or.inl ⟨errStr, rfl, ?_⟩)
      simp only [getIndexFile, hinit, hidx, hcold, hfo]
      rfl
    | none =>
      by_cases hchange : (readDiff server env repo idx).Change = true
      · cases hir : (readRegeneration server env repo entry idx).1.err with
        | some errStr =>
          refine Or.inr (Or.inr (Or.inr (Or.inl ⟨errStr, rfl, rfl, ?_⟩)))
          simp only [readRegeneration, readDiff] at hchange hir ⊢
          simp only [getIndexFile, hinit, hidx, getRepoObjectSlice, hcold, hfo, hchange, hir]
          rfl
        | none =>
          refine Or.inr (Or.inr (Or.inr (Or.inr ⟨rfl, rfl, ?_⟩)))
          simp only [readRegeneration, readDiff] at hchange hir ⊢
          simp only [getIndexFile, hinit, hidx, getRepoObjectSlice, hcold, hfo, hchange, hir]
          rfl
      · have hchange' : (readDiff server env repo idx).Change = false := by
          simpa using hchange
        refine Or.inr (Or.inr (Or.inl ⟨rfl, ?_⟩))
        simp only [readDiff] at hchange'
        simp only [getIndexFile, hinit, hidx, getRepoObjectSlice, hcold, hfo, hchange']
        rfl
  · refine Or.inl ?_
    simp only [getIndexFile, hinit, hidx, hcold]
    rfl

/-- C12, as stated, fails: on a cold read whose regeneration succeeds,
`getIndexFile` itself assigns the regenerated index to `entry.RepoIndex`. Here
the regeneration coordinator leaves the entry with its empty index, and after
the call the entry holds the regenerated one. -/
theorem read_path_writes_entry :
    ((sampleCollaborators ⟨some emptyIndex⟩ ⟨[sampleObject 100], none⟩
        ⟨some sampleIndex, none⟩ (fun _ => Except.error "object not found")
      ).regenerateRepositoryIndex ⟨some emptyIndex⟩
        (GetObjectSliceDiff [] [sampleObject 100] 0)).2 = ⟨some emptyIndex⟩ ∧
    getIndexFile (sampleServer 0 0)
        (sampleCollaborators ⟨some emptyIndex⟩ ⟨[sampleObject 100], none⟩
          ⟨some sampleIndex, none⟩ (fun _ => Except.error "object not found")) "myrepo"
      = some ⟨some sampleIndex, none, some ⟨some sampleIndex⟩,
          [Event.initCacheEntry "myrepo", Event.getChartList "myrepo",
           Event.getObjectSliceDiff [] [sampleObject 100] 0,
           Event.regenerateRepositoryIndex ⟨some emptyIndex⟩
             (GetObjectSliceDiff [] [sampleObject 100] 0),
           Event.assignRepoIndex (some sampleIndex)]⟩ := by
  refine ⟨by rfl, by decide⟩

/-- C12 (amended): `getIndexFile` assigns to the cache entry in one case only.
When it did not call the regeneration coordinator, or the regeneration reported
an error, it makes no assignment, and the entry is as `initCacheEntry` yielded
it, respectively as the regeneration coordinator left it. When the
regeneration reported no error, its single assignment sets `entry.RepoIndex`
to the index the regeneration returned. -/
theorem read_path_assignment (server : MultiTenantServer) (env : Collaborators)
    (repo : String) (entry : cacheEntry) (idx : Index)
    (hinit : env.initCacheEntry repo = Except.ok entry)
    (hidx : entry.RepoIndex = some idx) :
    ∃ r, getIndexFile server env repo = some r ∧
      ((∀ ev ∈ r.trace, ev.isRegeneration = false) →
        (∀ ev ∈ r.trace, ev.isAssignment = false) ∧ r.entry = some entry) ∧
      (∀ e d, Event.regenerateRepositoryIndex e d ∈ r.trace →
        e = entry ∧ d = readDiff server env repo idx ∧
        ((env.regenerateRepositoryIndex e d).1.err ≠ none →
          (∀ ev ∈ r.trace, ev.isAssignment = false) ∧
          r.entry = some (env.regenerateRepositoryIndex e d).2) ∧
        ((env.regenerateRepositoryIndex e d).1.err = none →
          (∀ ev ∈ r.trace, ev.isAssignment = true →
            ev = Event.assignRepoIndex (env.regenerateRepositoryIndex e d).1.index) ∧
          Event.assignRepoIndex (env.regenerateRepositoryIndex e d).1.index ∈ r.trace ∧
          r.entry = some { (env.regenerateRepositoryIndex e d).2 with
            RepoIndex := (env.regenerateRepositoryIndex e d).1.index })) := by
  rcases getIndexFile_cases server env repo entry idx hinit hidx with
    h | ⟨errStr, _, h⟩ | ⟨_, h⟩ | ⟨errStr, _, hir, h⟩ | ⟨_, hir, h⟩
  · refine ⟨_, h, ?_, ?_⟩
    · intro _
      simp [Event.isAssignment]
    · intro e d hmem
      simp at hmem
  · refine ⟨_, h, ?_, ?_⟩
    · intro _
      simp [Event.isAssignment]
    · intro e d hmem
      simp at hmem
  · refine ⟨_, h, ?_, ?_⟩
    · intro _
      simp [Event.isAssignment]
    · intro e d hmem
      simp at hmem
  · refine ⟨_, h, ?_, ?_⟩
    · intro hno
      have := hno (Event.regenerateRepositoryIndex entry (readDiff server env repo idx))
        (by simp)
      simp [Event.isRegeneration] at this
    · intro e d hmem
      simp at hmem
      obtain ⟨he, hd⟩ := hmem
      subst he hd
      have hir' : (env.regenerateRepositoryIndex e (readDiff server env repo idx)).1.err
          = some errStr := hir
      refine ⟨rfl, rfl, ?_, ?_⟩
      · intro _
        exact ⟨by simp [Event.isAssignment], rfl⟩
      · intro hnone
        rw [hir'] at hnone
        cases hnone
  · refine ⟨_, h, ?_, ?_⟩
    · intro hno
      have := hno (Event.regenerateRepositoryIndex entry (readDiff server env repo idx))
        (by simp)
      simp [Event.isRegeneration] at this
    · intro e d hmem
      simp at hmem
      obtain ⟨he, hd⟩ := hmem
      subst he hd
      have hir' : (env.regenerateRepositoryIndex e (readDiff server env repo idx)).1.err
          = none := hir
      refine ⟨rfl, rfl, ?_, ?_⟩
      · intro hsome
        exact absurd hir' hsome
      · intro _
        refine ⟨?_, by simp [readRegeneration], rfl⟩
        intro ev hev hassign
        simp at hev
        rcases hev with h1 | h1 | h1 | h1 | h1 <;> subst h1 <;>
          simp [Event.isAssignment, readRegeneration] at hassign ⊢

/-- The amended C12 on a cold read whose regeneration succeeds. -/
theorem read_path_assignment_witness :
    ∃ r, getIndexFile (sampleServer 0 0)
        (sampleCollaborators ⟨some emptyIndex⟩ ⟨[sampleObject 100], none⟩
          ⟨some sampleIndex, none⟩ (fun _ => Except.error "object not found")) "myrepo"
        = some r ∧
      ((∀ ev ∈ r.trace, ev.isRegeneration = false) →
        (∀ ev ∈ r.trace, ev.isAssignment = false) ∧ r.entry = some ⟨some emptyIndex⟩) :=
  match read_path_assignment (sampleServer 0 0)
      (sampleCollaborators ⟨some emptyIndex⟩ ⟨[sampleObject 100], none⟩
        ⟨some sampleIndex, none⟩ (fun _ => Except.error "object not found")) "myrepo"
      ⟨some emptyIndex⟩ emptyIndex rfl rfl with
  | ⟨r, hr, hquiet, _⟩ => ⟨r, hr, hquiet⟩

end Multitenant

/-! ## The limiter of index builds -/

namespace Multitenant

theorem chan_step_bounds (c : Chan) (op : ChanOp) (h : c.length ≤ c.capacity) :
    (c.step op).capacity = c.capacity ∧ (c.step op).length ≤ (c.step op).capacity := by
  cases op with
  | send =>
    by_cases hroom : c.length < c.capacity
    · have hstep : c.step ChanOp.send = ⟨c.capacity, c.length + 1⟩ := by
        simp [Chan.step, Chan.send, hroom]
      rw [hstep]
      exact ⟨rfl, hroom⟩
    · have hstep : c.step ChanOp.send = c := by
        simp [Chan.step, Chan.send, hroom]
      rw [hstep]
      exact ⟨rfl, h⟩
  | receive =>
    by_cases hsome : 0 < c.length
    · have hstep : c.step ChanOp.receive = ⟨c.capacity, c.length - 1⟩ := by
        simp [Chan.step, Chan.receive, hsome]
      rw [hstep]
      exact ⟨rfl, by show c.length - 1 ≤ c.capacity; omega⟩
    · have hstep : c.step ChanOp.receive = c := by
        simp [Chan.step, Chan.receive, hsome]
      rw [hstep]
      exact ⟨rfl, h⟩

theorem chan_run_bounds (ops : List ChanOp) (c : Chan) (h : c.length ≤ c.capacity) :
    (c.run ops).capacity = c.capacity ∧ (c.run ops).length ≤ c.capacity := by
  induction ops generalizing c with
  | nil => exact ⟨rfl, h⟩
  | cons op ops ih =>
    have hstep := chan_step_bounds c op h
    have hrest := ih (c.step op) hstep.2
    simp only [Chan.run, List.foldl_cons] at hrest ⊢
    rw [hstep.1] at hrest
    exact hrest

/-- C18: `NewMultiTenantServer` builds a server exactly when
`options.IndexLimit` is not negative (for a negative limit the limiter channel
cannot be made). The server built has a `Limiter` that starts empty, whose
capacity is `options.IndexLimit`, and that never holds more than
`options.IndexLimit` elements, whatever is sent to it and received from it. -/
theorem limiter_capacity (options : MultiTenantServerOptions) :
    (NewMultiTenantServer options ≠ none ↔ 0 ≤ options.IndexLimit) ∧
    ∀ server, NewMultiTenantServer options = some server →
      (server.Limiter.capacity : Int) = options.IndexLimit ∧
      server.IndexLimit = options.IndexLimit ∧
      server.Limiter.length = 0 ∧
      ∀ ops, (server.Limiter.run ops).capacity = server.Limiter.capacity ∧
        ((server.Limiter.run ops).length : Int) ≤ options.IndexLimit := by
  by_cases hneg : options.IndexLimit < 0
  · have hnone : NewMultiTenantServer options = none := by
      simp [NewMultiTenantServer, makeChan, hneg]
    refine ⟨?_, ?_⟩
    · simp only [hnone, ne_eq, not_true_eq_false, false_iff]
      omega
    · intro server hserver
      rw [hnone] at hserver
      cases hserver
  · have hpos : 0 ≤ options.IndexLimit := by omega
    have hsome : NewMultiTenantServer options
        = some ⟨options.TimestampTolerance, options.MaxStorageObjects, options.IndexLimit,
            options.UseStatefiles,
            if options.ChartURL ≠ "" then options.ChartURL ++ options.Router.ContextPath
            else "",
            options.Version, options.CacheInterval, options.Router,
            ⟨options.IndexLimit.toNat, 0⟩, ⟨options.IndexLimit.toNat, 0⟩⟩ := by
      simp [NewMultiTenantServer, makeChan, hneg]
    refine ⟨?_, ?_⟩
    · simp [hsome, hpos]
    · intro server hserver
      rw [hsome] at hserver
      have hs := Option.some.inj hserver
      subst hs
      refine ⟨Int.toNat_of_nonneg hpos, rfl, rfl, ?_⟩
      intro ops
      have hb := chan_run_bounds ops ⟨options.IndexLimit.toNat, 0⟩ (Nat.zero_le _)
      refine ⟨hb.1, ?_⟩
      have hle : ((Chan.run ⟨options.IndexLimit.toNat, 0⟩ ops).length : Int)
          ≤ ((options.IndexLimit.toNat : Nat) : Int) := Int.ofNat_le.2 hb.2
      rw [Int.toNat_of_nonneg hpos] at hle
      exact hle

/-- C18 on options with an index limit of 2: three sends leave two holders. -/
theorem limiter_capacity_witness :
    ∃ server, NewMultiTenantServer ⟨⟨""⟩, 0, "", "v0.12.0", 0, 2, false, false, 0⟩ = some server ∧
      (server.Limiter.capacity : Int) = 2 ∧
      server.Limiter.run [ChanOp.send, ChanOp.send, ChanOp.send] = ⟨2, 2⟩ :=
  ⟨⟨0, 0, 2, false, "", "v0.12.0", 0, ⟨""⟩, ⟨2, 0⟩, ⟨2, 0⟩⟩, by decide,
    ((limiter_capacity ⟨⟨""⟩, 0, "", "v0.12.0", 0, 2, false, false, 0⟩).2
      ⟨0, 0, 2, false, "", "v0.12.0", 0, ⟨""⟩, ⟨2, 0⟩, ⟨2, 0⟩⟩ (by decide)).1,
    by decide⟩

end Multitenant

/-! ## The object path of a tenant-scoped read -/

namespace Multitenant

theorem joinPath_cons_data (u : String) (us : List String) :
    (Router.joinPath (u :: us)).data = '/' :: (u.data ++ (Router.joinPath us).data) := rfl

theorem intercalate_go_data (ts : List String) (acc : String) :
    (String.intercalate.go acc "/" ts).data = acc.data ++ (Router.joinPath ts).data := by
  induction ts generalizing acc with
  | nil => simp [String.intercalate.go, Router.joinPath]
  | cons a as ih =>
    simp only [String.intercalate.go, ih, joinPath_cons_data, String.data_append]
    simp

theorem intercalate_cons_data (t : String) (ts : List String) :
    (String.intercalate "/" (t :: ts)).data = t.data ++ (Router.joinPath ts).data := by
  simp only [String.intercalate, intercalate_go_data]

theorem intercalate_go_append (l : List String) (acc f : String) :
    String.intercalate.go acc "/" (l ++ [f]) = String.intercalate.go acc "/" l ++ "/" ++ f := by
  induction l generalizing acc with
  | nil => simp [String.intercalate.go]
  | cons a as ih =>
    show String.intercalate.go (acc ++ "/" ++ a) "/" (as ++ [f])
      = String.intercalate.go (acc ++ "/" ++ a) "/" as ++ "/" ++ f
    exact ih (acc ++ "/" ++ a)

theorem intercalate_append_singleton (ts : List String) (f : String) (hne : ts ≠ []) :
    String.intercalate "/" (ts ++ [f]) = String.intercalate "/" ts ++ "/" ++ f := by
  cases ts with
  | nil => exact absurd rfl hne
  | cons t ts => simp only [List.cons_append, String.intercalate, intercalate_go_append]

theorem splitSlash_segments (ts : List String) (t : String)
    (h : ∀ s ∈ t :: ts, Router.WellFormedSegment s) :
    Router.splitSlash (t.data ++ (Router.joinPath ts).data) = (t :: ts).map String.data := by
  induction ts generalizing t with
  | nil =>
    have ht := h t (by simp)
    simp [Router.joinPath, Router.splitSlash_seg t.data ht.2]
  | cons u us ih =>
    have ht := h t (by simp)
    have hrest : ∀ s ∈ u :: us, Router.WellFormedSegment s := fun s hs => h s (by simp [hs])
    rw [joinPath_cons_data, Router.splitSlash_seg_slash t.data _ ht.2, ih u hrest]
    rfl

theorem foldl_cleanStep_plain (rooted : Bool) (segs acc : List String)
    (h : ∀ s ∈ segs, s ≠ "" ∧ s ≠ "." ∧ s ≠ "..") :
    segs.foldl (cleanStep rooted) acc = acc ++ segs := by
  induction segs generalizing acc with
  | nil => simp
  | cons s segs ih =>
    have hs := h s (by simp)
    have hrest : ∀ x ∈ segs, x ≠ "" ∧ x ≠ "." ∧ x ≠ ".." := fun x hx => h x (by simp [hx])
    simp only [List.foldl_cons]
    have hstep : cleanStep rooted acc s = acc ++ [s] := by
      simp [cleanStep, hs.1, hs.2.1, hs.2.2]
    rw [hstep, ih _ hrest]
    simp

/-- A path of ordinary segments joined by slashes is clean. -/
theorem pathClean_plain (t : String) (ts : List String) (h : ∀ s ∈ t :: ts, PlainSegment s) :
    pathClean (String.intercalate "/" (t :: ts)) = String.intercalate "/" (t :: ts) := by
  have hwf : ∀ s ∈ t :: ts, Router.WellFormedSegment s := fun s hs => (h s hs).1
  have hplain : ∀ s ∈ t :: ts, s ≠ "" ∧ s ≠ "." ∧ s ≠ ".." := by
    intro s hs
    refine ⟨?_, (h s hs).2.1, (h s hs).2.2⟩
    intro he
    subst he
    exact (h "" hs).1.1 rfl
  have ht := hwf t (by simp)
  have hhead : ¬ (String.intercalate "/" (t :: ts)).data.head? = some '/' := by
    rw [intercalate_cons_data]
    cases hd : t.data with
    | nil => exact absurd hd ht.1
    | cons c cs =>
      have hc : '/' ∉ c :: cs := hd ▸ ht.2
      simp only [List.cons_append, List.head?_cons, Option.some.injEq]
      intro he
      exact hc (by simp [he])
  have hsplit : (Router.splitSlash (String.intercalate "/" (t :: ts)).data).map String.mk
      = t :: ts := by
    rw [intercalate_cons_data, splitSlash_segments ts t hwf, List.map_map]
    have hid : (String.mk ∘ String.data) = id := by
      funext x
      rfl
    rw [hid, List.map_id]
  simp only [pathClean, hhead, hsplit, foldl_cleanStep_plain _ _ _ hplain]
  simp

/-- Joining a tenant key of ordinary segments and an ordinary file name puts
a slash between them. -/
theorem pathJoin_plain (ts : List String) (filename : String) (hne : ts ≠ [])
    (hts : ∀ t ∈ ts, PlainSegment t) (hfile : PlainSegment filename) :
    pathJoin (String.intercalate "/" ts) filename
      = String.intercalate "/" ts ++ "/" ++ filename := by
  cases ts with
  | nil => exact absurd rfl hne
  | cons t ts =>
    have hrepo : String.intercalate "/" (t :: ts) ≠ "" := by
      intro he
      have hd := congrArg String.data he
      rw [intercalate_cons_data] at hd
      have ht := (hts t (by simp)).1.1
      cases hdt : t.data with
      | nil => exact ht hdt
      | cons c cs =>
        rw [hdt] at hd
        simp at hd
    have hall : ∀ s ∈ t :: (ts ++ [filename]), PlainSegment s := by
      intro s hs
      simp only [List.mem_cons, List.mem_append, List.mem_singleton, List.not_mem_nil,
        or_false] at hs
      rcases hs with h1 | h1 | h1
      · exact hts s (by simp [h1])
      · exact hts s (by simp [h1])
      · subst h1
        exact hfile
    have hjoin := intercalate_append_singleton (t :: ts) filename (by simp)
    simp only [pathJoin, hrepo, false_and, if_false]
    rw [← hjoin]
    exact pathClean_plain t (ts ++ [filename]) hall

/-- C20, as stated, fails: `path.Join` cleans the joined path. For the tenant
`org1/team1` and the file name `..` (a single segment, without a slash) the
path requested from the backend is `org1`, which is not `org1/team1/..` and
does not lie under the tenant's prefix; and for the tenant key `org1/..` the
path requested for `mychart-0.1.0.tgz` is the bare file name. -/
theorem object_path_escapes_tenant :
    "org1/team1" ≠ "" ∧ '/' ∉ "..".data ∧
    (getStorageObject
        (sampleCollaborators ⟨some emptyIndex⟩ ⟨[], none⟩ ⟨none, none⟩
          (fun _ => Except.error "object not found")) "org1/team1" "..").trace.head?
      = some (Event.getObject "org1") ∧
    "org1" ≠ "org1/team1" ++ "/" ++ ".." ∧
    ¬ ("org1/team1" ++ "/").data <+: "org1".data ∧
    (getStorageObject
        (sampleCollaborators ⟨some emptyIndex⟩ ⟨[], none⟩ ⟨none, none⟩
          (fun _ => Except.error "object not found")) "org1/.." "mychart-0.1.0.tgz").trace.head?
      = some (Event.getObject "mychart-0.1.0.tgz") ∧
    ¬ ("org1/.." ++ "/").data <+: "mychart-0.1.0.tgz".data := by
  decide

/-- C20 (amended): for every tenant key made of one or more ordinary segments
(non-empty, without a slash, neither `.` nor `..`) joined by slashes, and every
file name that is such a segment, the only object path `getStorageObject`
requests from the backend is `repo/filename`, which lies under the tenant's
prefix `repo/`. -/
theorem tenant_scoped_object_path (env : Collaborators) (ts : List String)
    (filename : String) (hne : ts ≠ []) (hts : ∀ t ∈ ts, PlainSegment t)
    (hfile : PlainSegment filename) :
    Event.getObject (String.intercalate "/" ts ++ "/" ++ filename)
      ∈ (getStorageObject env (String.intercalate "/" ts) filename).trace ∧
    ∀ objectPath,
      Event.getObject objectPath
          ∈ (getStorageObject env (String.intercalate "/" ts) filename).trace →
        objectPath = String.intercalate "/" ts ++ "/" ++ filename ∧
        (String.intercalate "/" ts ++ "/").data <+: objectPath.data := by
  have hjoin := pathJoin_plain ts filename hne hts hfile
  have htrace : ∀ objectPath,
      Event.getObject objectPath
          ∈ (getStorageObject env (String.intercalate "/" ts) filename).trace ↔
        objectPath = String.intercalate "/" ts ++ "/" ++ filename := by
    intro objectPath
    cases hget : env.GetObject (String.intercalate "/" ts ++ "/" ++ filename) with
    | error errStr =>
      simp only [getStorageObject, hjoin, hget]
      simp
    | ok object =>
      simp only [getStorageObject, hjoin, hget]
      simp
  refine ⟨(htrace _).2 rfl, ?_⟩
  intro objectPath hmem
  have hpath := (htrace objectPath).1 hmem
  subst hpath
  refine ⟨rfl, ?_⟩
  rw [String.data_append]
  exact List.prefix_append _ _

/-- The amended C20 on the tenant `org1/team1` and the chart
`mychart-0.1.0.tgz`. -/
theorem tenant_scoped_object_path_witness :
    (∀ t ∈ ["org1", "team1"], PlainSegment t) ∧ PlainSegment "mychart-0.1.0.tgz" ∧
    Event.getObject ("org1/team1" ++ "/" ++ "mychart-0.1.0.tgz")
      ∈ (getStorageObject
          (sampleCollaborators ⟨some emptyIndex⟩ ⟨[], none⟩ ⟨none, none⟩
            (fun _ => Except.error "object not found"))
          "org1/team1" "mychart-0.1.0.tgz").trace :=
  ⟨by decide, by decide,
    (tenant_scoped_object_path
      (sampleCollaborators ⟨some emptyIndex⟩ ⟨[], none⟩ ⟨none, none⟩
        (fun _ => Except.error "object not found"))
      ["org1", "team1"] "mychart-0.1.0.tgz" (by decide) (by decide) (by decide)).1⟩

end Multitenant

/-! ## The base chart URL -/

namespace Multitenant

/-- C21: for options from which a server is built (an index limit that is not
negative), the server built by `NewMultiTenantServer` keeps the router of the
options, and its `ChartURL` is `options.ChartURL` followed by the router's
context path when `options.ChartURL` is not empty, and the empty string when
`options.ChartURL` is empty, whatever the context path is. -/
theorem base_chart_url (options : MultiTenantServerOptions)
    (hlimit : 0 ≤ options.IndexLimit) :
    ∃ server, NewMultiTenantServer options = some server ∧
      server.Router = options.Router ∧
      (options.ChartURL ≠ "" →
        server.ChartURL = options.ChartURL ++ options.Router.ContextPath) ∧
      (options.ChartURL = "" → server.ChartURL = "") := by
  have hneg : ¬ options.IndexLimit < 0 := by omega
  refine ⟨⟨options.TimestampTolerance, options.MaxStorageObjects, options.IndexLimit,
    options.UseStatefiles,
    if options.ChartURL ≠ "" then options.ChartURL ++ options.Router.ContextPath else "",
    options.Version, options.CacheInterval, options.Router,
    ⟨options.IndexLimit.toNat, 0⟩, ⟨options.IndexLimit.toNat, 0⟩⟩, ?_, rfl, ?_, ?_⟩
  · simp [NewMultiTenantServer, makeChan, hneg]
  · intro hurl
    simp [hurl]
  · intro hurl
    simp [hurl]

/-- C21 on the chart URL `https://chartmuseum.com` of `server_test.go`, under
the context path `/x` and without a chart URL. -/
theorem base_chart_url_witness :
    (∃ server,
      NewMultiTenantServer ⟨⟨"/x"⟩, 0, "https://chartmuseum.com", "", 0, 0, false, false, 0⟩
        = some server ∧
      server.ChartURL = "https://chartmuseum.com" ++ "/x") ∧
    (∃ server,
      NewMultiTenantServer ⟨⟨"/x"⟩, 0, "", "", 0, 0, false, false, 0⟩ = some server ∧
      server.ChartURL = "") :=
  ⟨match base_chart_url ⟨⟨"/x"⟩, 0, "https://chartmuseum.com", "", 0, 0, false, false, 0⟩
      (by decide) with
    | ⟨server, hserver, _, hset, _⟩ => ⟨server, hserver, hset (by decide)⟩,
   match base_chart_url ⟨⟨"/x"⟩, 0, "", "", 0, 0, false, false, 0⟩ (by decide) with
    | ⟨server, hserver, _, _, hunset⟩ => ⟨server, hserver, hunset rfl⟩⟩

end Multitenant

end ChartMuseum
